import Mathlib

/-!
Verification development for the spill-capable partitioned hash join operator
declared in `be/src/exec/partitioned-hash-join-node.h`.

The repository ships only the header (declarations and documentation
comments); the `.cc` bodies are not part of the source tree.  The
definitions below therefore embed the operator as documented by the header
and, where the header is silent, as described by the design specification
(each such definition carries a doc comment starting with
`Modelled from the spec:`).

Rows are opaque values of types `B` (build side) and `P` (probe side); key
evaluation, hashing, residual predicates and the memory-pressure policy
(which partitions spill, which spilled partitions fit back in memory) are
parameters, so every theorem quantifies over all inputs and all memory
budgets.
-/

namespace Impala

/-- Modelled from the spec: `PhjBuilder::PARTITION_FANOUT` is not in the
source tree; the spec fixes the fanout of one partitioning pass as a power
of two, typically 16. -/
def PARTITION_FANOUT : Nat := 16

/-- Modelled from the spec: `PhjBuilder::NUM_PARTITIONING_BITS` is not in
the source tree; `BITS = log2(FANOUT)`. -/
def NUM_PARTITIONING_BITS : Nat := 4

/-- Modelled from the spec: `PhjBuilder::MAX_PARTITION_DEPTH` is not in the
source tree; the spec bounds spill recursion by `MAX_DEPTH`, typically 16. -/
def MAX_PARTITION_DEPTH : Nat := 16

/-- Join variants supported by the operator (`TJoinOp::type` values the
header dispatches on). -/
inductive TJoinOp where
  | INNER_JOIN
  | LEFT_OUTER_JOIN
  | RIGHT_OUTER_JOIN
  | FULL_OUTER_JOIN
  | LEFT_SEMI_JOIN
  | LEFT_ANTI_JOIN
  | RIGHT_SEMI_JOIN
  | RIGHT_ANTI_JOIN
  | NULL_AWARE_LEFT_ANTI_JOIN
deriving DecidableEq

/-- Parameters of one join instance: key evaluators (a `none` key is a SQL
NULL on the equi-join columns), the residual (`other_join_conjuncts`)
predicate, the per-level hash family mapped to a partition index, and the
memory-pressure oracles.  `spill level rows` says whether the partition
holding `rows` spills during the partitioning pass at `level`; `fits level
rows` says whether a popped spilled partition's build side now fits in
memory.  Correctness must hold for every choice of these oracles. -/
structure JoinParams (B P K : Type) where
  keyB : B → Option K
  keyP : P → Option K
  residual : B → P → Bool
  hashL : Nat → Option K → Fin PARTITION_FANOUT
  spill : Nat → List B → Bool
  fits : Nat → List B → Bool

variable {B P K : Type}

/-- A joined output row: build half and probe half, either of which may be
NULL (for outer joins) or absent (semi/anti variants emit one side only). -/
abbrev JoinOut (B P : Type) := Option B × Option P

/-- Hash-table match: the equi-join keys are non-NULL and equal, and the
residual predicate passes.  This is the condition under which a probe row
and a build row pair up in any of the hash-based probe paths. -/
def hmatch [DecidableEq K] (J : JoinParams B P K) (b : B) (p : P) : Bool :=
  match J.keyB b, J.keyP p with
  | some kb, some kp => decide (kb = kp) && J.residual b p
  | _, _ => false

/-- Modelled from the spec: the NAAJ match condition.  A build row
suppresses a probe row when the residual passes and the keys are equal or
either key is NULL (SQL `NOT IN` semantics, spec section 4.5). -/
def naajMatch [DecidableEq K] (J : JoinParams B P K) (b : B) (p : P) : Bool :=
  J.residual b p &&
    match J.keyB b, J.keyP p with
    | none, _ => true
    | _, none => true
    | some kb, some kp => decide (kb = kp)

/-- The probe row `p` has at least one hash-table match in `build`. -/
def hasMatch [DecidableEq K] (J : JoinParams B P K) (build : List B) (p : P) : Bool :=
  build.any fun b => hmatch J b p

/-- The build row `b` is matched by at least one row of `probe`. -/
def buildMatched [DecidableEq K] (J : JoinParams B P K) (probe : List P) (b : B) : Bool :=
  probe.any fun p => hmatch J b p

/-- All matching (build, probe) pairs, probe-driven. -/
def innerPairs [DecidableEq K] (J : JoinParams B P K) (build : List B) (probe : List P) :
    List (JoinOut B P) :=
  probe.flatMap fun p => (build.filter fun b => hmatch J b p).map fun b => (some b, some p)

/-- Modelled from the spec: the reference naive nested-loop join, per
variant, used as the specification side of the completeness property
(spec section 8, property 1, and the emission table of section 4.3). -/
def refJoin [DecidableEq K] (op : TJoinOp) (J : JoinParams B P K)
    (build : List B) (probe : List P) : List (JoinOut B P) :=
  match op with
  | .INNER_JOIN => innerPairs J build probe
  | .LEFT_OUTER_JOIN =>
      innerPairs J build probe ++
        (probe.filter fun p => !hasMatch J build p).map fun p => (none, some p)
  | .RIGHT_OUTER_JOIN =>
      innerPairs J build probe ++
        (build.filter fun b => !buildMatched J probe b).map fun b => (some b, none)
  | .FULL_OUTER_JOIN =>
      innerPairs J build probe ++
        ((probe.filter fun p => !hasMatch J build p).map fun p => (none, some p)) ++
        (build.filter fun b => !buildMatched J probe b).map fun b => (some b, none)
  | .LEFT_SEMI_JOIN =>
      (probe.filter fun p => hasMatch J build p).map fun p => (none, some p)
  | .LEFT_ANTI_JOIN =>
      (probe.filter fun p => !hasMatch J build p).map fun p => (none, some p)
  | .RIGHT_SEMI_JOIN =>
      (build.filter fun b => buildMatched J probe b).map fun b => (some b, none)
  | .RIGHT_ANTI_JOIN =>
      (build.filter fun b => !buildMatched J probe b).map fun b => (some b, none)
  | .NULL_AWARE_LEFT_ANTI_JOIN =>
      (probe.filter fun p => !build.any fun b => naajMatch J b p).map fun p => (none, some p)

/-- Whether the variant updates the matched flags of hash-table entries
while probing (right outer, full outer, right semi, right anti: the
`hash_tbl_iterator` supports `matched` / `set_matched`, and
`ProcessProbeRowRightSemiJoins` / `ProcessProbeRowOuterJoins` update them). -/
def marksMatches (op : TJoinOp) : Bool :=
  match op with
  | .RIGHT_OUTER_JOIN | .FULL_OUTER_JOIN | .RIGHT_SEMI_JOIN | .RIGHT_ANTI_JOIN => true
  | _ => false

/-- Whether `CleanUpHashPartitions` puts the partition on
`output_build_partitions_` so that `OutputUnmatchedBuild` later sweeps its
hash table (header lines 318-327 and 423-426: right-outer and full-outer
partitions are queued to flush their unmatched rows; header lines 188-193
and 269-272: right-anti output also happens in `OutputUnmatchedBuild`).
Right semi emits its matching build rows inline while probing, so its
partitions are not queued. -/
def usesOutputBuildPartitions (op : TJoinOp) : Bool :=
  match op with
  | .RIGHT_OUTER_JOIN | .FULL_OUTER_JOIN | .RIGHT_ANTI_JOIN => true
  | _ => false

/-- Modelled from the spec: the per-variant inline emission rule of the
probe loop for the variants whose emission depends only on the row values
(spec section 4.3 emission table; the `ProcessProbeRow...` bodies are not
in the source tree).  The NAAJ row here is the row routed to
`null_aware_probe_partition_` when no match exists.  Right semi and right
anti are flag-dependent and handled in `ProcessProbeRow` directly. -/
def inlineEmit [DecidableEq K] (op : TJoinOp) (J : JoinParams B P K)
    (build : List B) (p : P) : List (JoinOut B P) :=
  let ms := build.filter fun b => hmatch J b p
  match op with
  | .INNER_JOIN => ms.map fun b => (some b, some p)
  | .LEFT_OUTER_JOIN =>
      if ms.isEmpty then [(none, some p)] else ms.map fun b => (some b, some p)
  | .RIGHT_OUTER_JOIN => ms.map fun b => (some b, some p)
  | .FULL_OUTER_JOIN =>
      if ms.isEmpty then [(none, some p)] else ms.map fun b => (some b, some p)
  | .LEFT_SEMI_JOIN => if ms.isEmpty then [] else [(none, some p)]
  | .LEFT_ANTI_JOIN => if ms.isEmpty then [(none, some p)] else []
  | .NULL_AWARE_LEFT_ANTI_JOIN => if ms.isEmpty then [(none, some p)] else []
  | .RIGHT_SEMI_JOIN => []
  | .RIGHT_ANTI_JOIN => []

/-- Modelled from the spec: one step of the probe loop
(`ProcessProbeRow`).  The in-memory build side is a list of hash-table
entries `(build row, matched flag)`.  The step returns the rows emitted
for probe row `p` and the updated entries.  For right semi, every
not-yet-matched matching build row is emitted and then marked, which
suppresses duplicate emission; for right anti only the marking happens and
output is deferred to `OutputUnmatchedBuild`. -/
def ProcessProbeRow [DecidableEq K] (op : TJoinOp) (J : JoinParams B P K)
    (bt : List (B × Bool)) (p : P) : List (JoinOut B P) × List (B × Bool) :=
  let out : List (JoinOut B P) :=
    match op with
    | .RIGHT_SEMI_JOIN =>
        (bt.filter fun e => !e.2 && hmatch J e.1 p).map fun e => (some e.1, none)
    | _ => inlineEmit op J (bt.map Prod.fst) p
  (out, if marksMatches op then bt.map (fun e => if hmatch J e.1 p then (e.1, true) else e) else bt)

/-- Modelled from the spec: the probe loop over a batch of probe rows
against one in-memory partition, threading the matched flags. -/
def processProbeRows [DecidableEq K] (op : TJoinOp) (J : JoinParams B P K)
    (bt : List (B × Bool)) : List P → List (JoinOut B P) × List (B × Bool)
  | [] => ([], bt)
  | p :: ps =>
      let r := ProcessProbeRow op J bt p
      let rest := processProbeRows op J r.2 ps
      (r.1 ++ rest.1, rest.2)

/-- Sweep of the partition's hash table after its probe input is
exhausted (`OutputUnmatchedBuild`): for the variants queued on
`output_build_partitions_` it emits every build row whose matched flag is
still unset (with NULLs on the probe side); other variants have no sweep. -/
def OutputUnmatchedBuild (op : TJoinOp) (bt : List (B × Bool)) : List (JoinOut B P) :=
  if usesOutputBuildPartitions op then
    (bt.filter fun e => !e.2).map fun e => (some e.1, none)
  else []

/-- Modelled from the spec: processing of one in-memory partition pair:
build the hash table (entries start unmatched), run the probe loop, then
flush the unmatched build rows for the variants that require it. -/
def inMemoryJoin [DecidableEq K] (op : TJoinOp) (J : JoinParams B P K)
    (build : List B) (probe : List P) : List (JoinOut B P) :=
  let r := processProbeRows op J (build.map fun b => (b, false)) probe
  r.1 ++ OutputUnmatchedBuild op r.2

/-- Build rows hashed to partition `i` by the level-`level` hash family. -/
def buildPartitionRows (J : JoinParams B P K) (level : Nat) (i : Fin PARTITION_FANOUT)
    (build : List B) : List B :=
  build.filter fun b => decide (J.hashL level (J.keyB b) = i)

/-- Probe rows hashed to partition `i` by the level-`level` hash family. -/
def probePartitionRows (J : JoinParams B P K) (level : Nat) (i : Fin PARTITION_FANOUT)
    (probe : List P) : List P :=
  probe.filter fun p => decide (J.hashL level (J.keyP p) = i)

/-- Errors surfaced by the join driver.  `memLimitExceeded` is the fatal
condition of spec section 4.6 (a partition at `MAX_PARTITION_DEPTH` that
still cannot build its hash table).  `depthBudgetExhausted` is the
embedding's recursion budget marker; the depth-bound theorem shows it is
unreachable from the operator's entry point. -/
inductive JoinErr where
  | memLimitExceeded
  | depthBudgetExhausted
deriving DecidableEq

/-- Combine the results of the fanout partitions of one pass,
concatenating their outputs and propagating the first error. -/
def combinePartitions {γ : Type} (f : Fin PARTITION_FANOUT → Except JoinErr (List γ)) :
    List (Fin PARTITION_FANOUT) → Except JoinErr (List γ)
  | [] => .ok []
  | i :: is => do
      let o ← f i
      let rest ← combinePartitions f is
      .ok (o ++ rest)

/-- Modelled from the spec: processing of one popped spilled partition
pair (`PrepareSpilledPartitionForProbe` and the repartitioning drive,
spec section 4.6).  If the build side now fits, the pair is joined in
memory.  Otherwise, a partition already at `MAX_PARTITION_DEPTH` is a
fatal memory error; below that, the pair is repartitioned with the
level+1 hash family, in-memory sub-partitions are probed inline and
spilled sub-partitions are processed recursively.  The first argument is
the structural recursion budget; one unit is consumed per level of
descent, so `MAX_PARTITION_DEPTH + 1 - level` units always suffice. -/
def processSpilledPartition [DecidableEq K] (op : TJoinOp) (J : JoinParams B P K) :
    Nat → Nat → List B → List P → Except JoinErr (List (JoinOut B P))
  | 0, _, _, _ => .error .depthBudgetExhausted
  | fuel + 1, level, build, probe =>
      if J.fits level build then .ok (inMemoryJoin op J build probe)
      else if MAX_PARTITION_DEPTH ≤ level then .error .memLimitExceeded
      else
        combinePartitions (fun i =>
          let bi := buildPartitionRows J (level + 1) i build
          let pi := probePartitionRows J (level + 1) i probe
          if J.spill (level + 1) bi then processSpilledPartition op J fuel (level + 1) bi pi
          else .ok (inMemoryJoin op J bi pi)) (List.finRange PARTITION_FANOUT)

/-- Modelled from the spec: the level-0 drive (PARTITIONING_BUILD then
PARTITIONING_PROBE): fan the inputs into the level-0 partitions; each
partition is either kept in memory and probed inline, or spilled and
later popped and processed by `processSpilledPartition`. -/
def partitionedJoinRun [DecidableEq K] (op : TJoinOp) (J : JoinParams B P K)
    (build : List B) (probe : List P) : Except JoinErr (List (JoinOut B P)) :=
  combinePartitions (fun i =>
    let bi := buildPartitionRows J 0 i build
    let pi := probePartitionRows J 0 i probe
    if J.spill 0 bi then
      processSpilledPartition op J (MAX_PARTITION_DEPTH + 1) 0 bi pi
    else .ok (inMemoryJoin op J bi pi)) (List.finRange PARTITION_FANOUT)

/-- Evaluation of the residual conjuncts of the NULL-keyed probe rows
against a stream of build rows (`EvaluateNullProbe`): bit `i` of
`matched_null_probe_` is set once some build row satisfies the residual
against row `i` of `null_probe_rows_`; evaluation for a row
short-circuits on the first success. -/
def EvaluateNullProbe (J : JoinParams B P K) (build : List B)
    (nullProbeRows : List P) (matched : List Bool) : List Bool :=
  List.zipWith (fun p m => m || build.any fun b => J.residual b p) nullProbeRows matched

/-- Emission of the NULL-keyed probe rows whose `matched_null_probe_` bit
is still false (`OutputNullAwareNullProbe`). -/
def OutputNullAwareNullProbe (nullProbeRows : List P) (matched : List Bool) : List P :=
  (nullProbeRows.zip matched).filterMap fun pm => if pm.2 then none else some pm.1

/-- Modelled from the spec: the whole operator driven to end of stream
(`GetNext` until `eos`), producing the total output.  For the null-aware
anti join, NULL-keyed rows of both inputs are diverted before
partitioning; non-NULL rows run through the partitioned machine, whose
unmatched probe rows accumulate in `null_aware_probe_partition_`; the
final phase then applies `OutputNullAwareProbeRows` (suppress a collected
row if some NULL-keyed build row passes the residual) and
`EvaluateNullProbe` / `OutputNullAwareNullProbe` on `null_probe_rows_`
against the entire original build side (spec section 4.5). -/
def partitionedHashJoin [DecidableEq K] (op : TJoinOp) (J : JoinParams B P K)
    (build : List B) (probe : List P) : Except JoinErr (List (JoinOut B P)) :=
  if op = .NULL_AWARE_LEFT_ANTI_JOIN then
    do
      let routed ← partitionedJoinRun op J (build.filter fun b => (J.keyB b).isSome)
        (probe.filter fun p => (J.keyP p).isSome)
      let collected := routed.filterMap fun o => o.2
      let out1 := collected.filter fun p =>
        !(build.filter fun b => (J.keyB b).isNone).any fun b => J.residual b p
      let bits := EvaluateNullProbe J build (probe.filter fun p => (J.keyP p).isNone)
        (List.replicate (probe.filter fun p => (J.keyP p).isNone).length false)
      let out2 := OutputNullAwareNullProbe (probe.filter fun p => (J.keyP p).isNone) bits
      .ok ((out1 ++ out2).map fun p => ((none : Option B), some p))
  else partitionedJoinRun op J build probe

/-- Modelled from the spec: the resumable drive of `OutputUnmatchedBuild`
across output batches: `hash_tbl_iterator_` persists the position `it`,
and each `GetNext` call emits at most one output batch's capacity. -/
def driveSweep {γ : Type} (rows : List γ) : List Nat → Nat → List γ
  | [], _ => []
  | c :: cs, it => (rows.drop it).take c ++ driveSweep rows cs (it + c)

/-- States of the join driver (`HashJoinState` in the header). -/
inductive HashJoinState where
  | PARTITIONING_BUILD
  | PARTITIONING_PROBE
  | PROBING_SPILLED_PARTITION
  | REPARTITIONING_BUILD
  | REPARTITIONING_PROBE
deriving DecidableEq

/-- Modelled from the spec: a spilled partition pair
(build stream + probe stream) as the driver sees it: whether its build
side fits in memory when popped and, if not, the spilled pairs its
repartitioning produces. -/
inductive SpilledPartitionPair where
  | mk (fitsInMemory : Bool) (children : List SpilledPartitionPair)

/-- States in which the driver pops the next spilled partition pair (or
terminates when none remain). -/
def popsSpilled (s : HashJoinState) : Bool :=
  match s with
  | .PARTITIONING_PROBE | .PROBING_SPILLED_PARTITION | .REPARTITIONING_PROBE => true
  | _ => false

/-- Modelled from the spec: the driver's control state: the current
`HashJoinState`, the children pending from the repartition in progress,
and `spilled_partitions_`. -/
structure DriverState where
  js : HashJoinState
  pending : List SpilledPartitionPair
  queue : List SpilledPartitionPair

/-- Modelled from the spec: the driver's initial control state
(`Open` starts the build phase). -/
def initialDriver (q : List SpilledPartitionPair) : DriverState :=
  ⟨.PARTITIONING_BUILD, [], q⟩

/-- Modelled from the spec: one transition of the join driver state
machine (spec section 4.1; the header documents the same flow at lines
68-97).  `none` is the terminal state (`eos`). -/
def JoinDriverStep (d : DriverState) : Option DriverState :=
  match d.js with
  | .PARTITIONING_BUILD => some { d with js := .PARTITIONING_PROBE }
  | .REPARTITIONING_BUILD =>
      some { js := .REPARTITIONING_PROBE, pending := [], queue := d.pending ++ d.queue }
  | _ =>
      match d.queue with
      | [] => none
      | .mk fits ch :: rest =>
          if fits then some { js := .PROBING_SPILLED_PARTITION, pending := [], queue := rest }
          else some { js := .REPARTITIONING_BUILD, pending := ch, queue := rest }

/-- The transition relation of spec section 4.1 (`none` is `eos`). -/
inductive SpecTrans : HashJoinState → Option HashJoinState → Prop
  | build_to_probe : SpecTrans .PARTITIONING_BUILD (some .PARTITIONING_PROBE)
  | repartition_build_to_probe : SpecTrans .REPARTITIONING_BUILD (some .REPARTITIONING_PROBE)
  | pop_eos (s : HashJoinState) : popsSpilled s = true → SpecTrans s none
  | pop_fits (s : HashJoinState) : popsSpilled s = true →
      SpecTrans s (some .PROBING_SPILLED_PARTITION)
  | pop_repartition (s : HashJoinState) : popsSpilled s = true →
      SpecTrans s (some .REPARTITIONING_BUILD)

/-- State of a build partition (`PhjBuilder::Partition`). -/
inductive BuildPartitionState where
  | inMemory
  | spilled
  | closed
deriving DecidableEq

/-- A build partition as `PrepareForProbe` sees it: its state and its
build rows. -/
structure BuildPartitionModel (β : Type) where
  pstate : BuildPartitionState
  buildRows : List β

/-- Modelled from the spec: the `hash_tbls_` array initialized by
`PrepareForProbe` (header lines 153-160 and 399-404): pointers to the
hash tables of in-memory partitions, NULL for spilled or closed ones. -/
def PrepareForProbeHashTbls (parts : Fin PARTITION_FANOUT → BuildPartitionModel B) :
    Fin PARTITION_FANOUT → Option (List B) :=
  fun i => if (parts i).pstate = .inMemory then some (parts i).buildRows else none

/-- Modelled from the spec: the `probe_hash_partitions_` vector
initialized by `PrepareForProbe` (header lines 153-160 and 406-411): one
probe partition (with an empty probe stream) per spilled build partition,
NULL entries for in-memory or closed ones. -/
def PrepareForProbeProbePartitions (parts : Fin PARTITION_FANOUT → BuildPartitionModel B) :
    Fin PARTITION_FANOUT → Option (List P) :=
  fun i => if (parts i).pstate = .spilled then some ([] : List P) else none

/-- Status values surfaced through out-parameters (`Status` in the
runtime; only the shape matters here). -/
inductive Status where
  | ok
  | memLimit
  | ioError
deriving DecidableEq

/-- Modelled from the spec: `AppendProbeRow` (header lines 167-172): the
stream has a write buffer allocated, so the append succeeds unless a
disk-write failure occurs; on failure it returns false and reports the
error through the out-parameter status instead of unwinding. -/
def AppendProbeRow (ioFail : Bool) (stream : List P) (row : P) (status : Status) :
    Bool × List P × Status :=
  if ioFail then (false, stream, .ioError) else (true, stream ++ [row], status)

/-- The probe-side partition object (`ProbePartition`): its probe stream,
or `none` once closed / transferred (header lines 458-492,
`IsClosed() == (probe_rows_ == NULL)`). -/
structure ProbePartition (ρ : Type) where
  probeRows : Option (List ρ)

/-- Modelled from the spec: `ProbePartition::Close` (header lines
473-475): release the stream's resources (returned here as the released
list) and mark the partition closed; idempotent. -/
def ProbePartition.Close (pp : ProbePartition ρ) : ProbePartition ρ × List ρ :=
  match pp.probeRows with
  | none => (pp, [])
  | some rs => (⟨none⟩, rs)

/-- The operator-level state that `Close` releases: the close flag kept by
the surrounding exec node, the probe partitions and the NAAJ stream. -/
structure PartitionedHashJoinNode (ρ : Type) where
  isClosed : Bool
  probeParts : List (ProbePartition ρ)
  nullProbeRows : Option (List ρ)

/-- Modelled from the spec: `Close(state)` (header line 116 and spec
section 6): if already closed it is a no-op, otherwise it closes and
destroys every probe partition and `null_probe_rows_` exactly once,
returning the released resources. -/
def PartitionedHashJoinNode.Close (s : PartitionedHashJoinNode ρ) :
    PartitionedHashJoinNode ρ × List ρ :=
  if s.isClosed then (s, [])
  else (⟨true, [], none⟩,
    (s.probeParts.flatMap fun pp => pp.Close.2) ++ (s.nullProbeRows.getD []))

/-- The emission shape the hash-probe loop uses for a variant: for the
null-aware anti join the loop has left-anti emission (an unmatched probe
row is routed to `null_aware_probe_partition_` instead of being output,
but the rows produced by the loop are the same); every other variant
emits as itself. -/
def hashLoopOp (op : TJoinOp) : TJoinOp :=
  if op = .NULL_AWARE_LEFT_ANTI_JOIN then .LEFT_ANTI_JOIN else op

/-- Concrete join parameters used to evaluate the theorems on sample
inputs: natural-number rows keyed by themselves, trivial residual, a
constant hash family, level-0 partitions spill and every popped partition
fits back in memory. -/
def exampleParams : JoinParams Nat Nat Nat :=
  ⟨some, some, fun _ _ => true, fun _ _ => ⟨0, by decide⟩,
    fun level _ => decide (level = 0), fun _ _ => true⟩

/-- Concrete join parameters whose popped partitions never fit back in
memory, driving the repartition recursion to the depth limit. -/
def exampleParamsNoFit : JoinParams Nat Nat Nat :=
  ⟨some, some, fun _ _ => true, fun _ _ => ⟨0, by decide⟩, fun _ _ => false, fun _ _ => false⟩

/-- An output row batch: the rows it holds and how many of them have been
committed (`RowBatch::CommitRows`). -/
structure OutBatchModel (γ : Type) where
  rows : List γ
  numCommitted : Nat

/-- Modelled from the spec: the inner loop of `ProcessProbeBatch`: process
probe rows one at a time, stopping with an error flag when a row's
processing fails (an append to a spilled stream hits an I/O failure);
returns the rows emitted so far, the updated hash-table entries and the
error flag. -/
def processProbeBatchLoop [DecidableEq K] (op : TJoinOp) (J : JoinParams B P K)
    (failRow : P → Bool) (bt : List (B × Bool)) :
    List P → List (JoinOut B P) × List (B × Bool) × Bool
  | [] => ([], bt, false)
  | p :: ps =>
      if failRow p then ([], bt, true)
      else
        let r := ProcessProbeRow op J bt p
        let rest := processProbeBatchLoop op J failRow r.2 ps
        (r.1 ++ rest.1, rest.2.1, rest.2.2)

/-- Modelled from the spec: `ProcessProbeBatch` (header lines 269-282):
returns -1 and sets the out-parameter status on error; otherwise returns
the number of rows added to the output batch without committing them. -/
def ProcessProbeBatch [DecidableEq K] (op : TJoinOp) (J : JoinParams B P K)
    (failRow : P → Bool) (bt : List (B × Bool)) (probeBatch : List P)
    (batch : OutBatchModel (JoinOut B P)) :
    Int × Status × OutBatchModel (JoinOut B P) :=
  let r := processProbeBatchLoop op J failRow bt probeBatch
  if r.2.2 then (-1, .ioError, batch)
  else ((r.1.length : Int), .ok, ⟨batch.rows ++ r.1, batch.numCommitted⟩)

/-! ### Generic list and multiset lemmas -/

/-- Filtering with two pointwise-disjoint predicates and appending is a
permutation of filtering with their disjunction. -/
theorem filter_or_of_disjoint {α : Type} {q₁ q₂ : α → Bool} (l : List α)
    (h : ∀ a ∈ l, q₁ a = true → q₂ a = false) :
    (l.filter q₁ ++ l.filter q₂).Perm (l.filter fun a => q₁ a || q₂ a) := by
  induction l with
  | nil => simp
  | cons a l ih =>
      have ih' := ih fun a ha => h a (List.mem_cons_of_mem _ ha)
      by_cases h1 : q₁ a = true
      · have h2 := h a (List.mem_cons_self a l) h1
        simp only [List.filter_cons, h1, h2, Bool.true_or, if_true, if_false]
        simpa using ih'.cons a
      · have h1' : q₁ a = false := by revert h1; cases q₁ a <;> simp
        by_cases h2 : q₂ a = true
        · simp only [List.filter_cons, h1', h2, Bool.false_or, if_true, if_false]
          exact (List.perm_middle.trans (ih'.cons a))
        · have h2' : q₂ a = false := by revert h2; cases q₂ a <;> simp
          simpa [List.filter_cons, h1', h2'] using ih'

/-- Any value over a list splits along a filter and its complement. -/
theorem any_split_filter {α : Type} (l : List α) (c f : α → Bool) :
    l.any f = ((l.filter c).any f || (l.filter fun a => !c a).any f) := by
  induction l with
  | nil => simp
  | cons a l ih => cases hc : c a <;> cases hf : f a <;> simp [List.filter_cons, hc, hf, ih]

/-- A filtered list is empty exactly when no element satisfies the
predicate. -/
theorem isEmpty_filter_eq {α : Type} (l : List α) (f : α → Bool) :
    (l.filter f).isEmpty = !l.any f := by
  induction l with
  | nil => simp
  | cons a l ih => cases hf : f a <;> simp [List.filter_cons, hf, ih]

/-- Flat-mapping a singleton-valued function is mapping. -/
theorem flatMap_singleton_eq_map {α β : Type} (l : List α) (f : α → β) :
    (l.flatMap fun a => [f a]) = l.map f := by
  induction l with
  | nil => rfl
  | cons a l ih => simp [List.flatMap_cons, ih]

/-- Flat-mapping a function that is pointwise empty yields the empty
list. -/
theorem flatMap_eq_nil_of_forall {α β : Type} (l : List α) (E : α → List β)
    (h : ∀ a ∈ l, E a = []) : l.flatMap E = [] := by
  induction l with
  | nil => rfl
  | cons a l ih =>
      simp [List.flatMap_cons, h a (List.mem_cons_self a l),
        ih fun a ha => h a (List.mem_cons_of_mem _ ha)]

/-- Pointwise-equal functions flat-map equally. -/
theorem flatMap_congr_mem {α β : Type} {l : List α} {E F : α → List β}
    (h : ∀ a ∈ l, E a = F a) : l.flatMap E = l.flatMap F := by
  induction l with
  | nil => rfl
  | cons a l ih =>
      simp [List.flatMap_cons, h a (List.mem_cons_self a l),
        ih fun a ha => h a (List.mem_cons_of_mem _ ha)]

/-- Appending on the left commutes past another appended block, up to
permutation. -/
theorem perm_append_swap {α : Type} (x A B : List α) :
    (x ++ (A ++ B)).Perm (A ++ (x ++ B)) := by
  rw [← List.append_assoc, ← List.append_assoc]
  exact List.perm_append_comm.append_right B

/-- A flat map over an if-then-else emission splits, up to permutation,
into the two filtered flat maps. -/
theorem flatMap_ite_perm {α β : Type} (l : List α) (c : α → Bool) (f g : α → List β) :
    (l.flatMap fun a => if c a then f a else g a).Perm
      ((l.filter c).flatMap f ++ (l.filter fun a => !c a).flatMap g) := by
  induction l with
  | nil => simp
  | cons a l ih =>
      cases hc : c a
      · simp only [List.flatMap_cons, List.filter_cons, hc, Bool.not_false, if_true, if_false]
        exact (ih.append_left (g a)).trans (perm_append_swap _ _ _)
      · simp only [List.flatMap_cons, List.filter_cons, hc, Bool.not_true, if_true, if_false]
        rw [List.append_assoc]
        exact ih.append_left (f a)

/-- A flat map splits along any filter and its complement, up to
permutation. -/
theorem flatMap_split_perm {α β : Type} (l : List α) (c : α → Bool) (E : α → List β) :
    (l.flatMap E).Perm ((l.filter c).flatMap E ++ (l.filter fun a => !c a).flatMap E) := by
  have h := flatMap_ite_perm l c E E
  simpa using h

/-- Summing the partition classes of a multiset over all indices recovers
the multiset. -/
theorem sum_filter_partition {α : Type} {n : ℕ} (s : Multiset α)
    (f : α → Fin n) : (∑ i : Fin n, s.filter fun a => f a = i) = s := by
  classical
  ext x
  rw [Multiset.count_sum']
  have : ∀ i : Fin n, (s.filter fun a => f a = i).count x = if f x = i then s.count x else 0 :=
    fun i => Multiset.count_filter
  simp only [this]
  rw [Finset.sum_ite_eq]
  simp

/-- List version of `sum_filter_partition`, with coercions to
multisets. -/
theorem sum_coe_filter_partition {α : Type} {n : ℕ} (l : List α)
    (f : α → Fin n) :
    (∑ i : Fin n, (↑(l.filter fun a => decide (f a = i)) : Multiset α)) = ↑l := by
  have h := sum_filter_partition (↑l : Multiset α) f
  rw [← h]
  refine Finset.sum_congr rfl fun i _ => ?_
  rw [← Multiset.filter_coe]

/-- Summing a flat map over the partition classes of a list recovers the
flat map over the list. -/
theorem sum_coe_flatMap_partition {α β : Type} {n : ℕ}
    (l : List α) (f : α → Fin n) (E : α → List β) :
    (∑ i : Fin n, (↑((l.filter fun a => decide (f a = i)).flatMap E) : Multiset β))
      = ↑(l.flatMap E) := by
  classical
  let F : Multiset α →+ Multiset β :=
    { toFun := fun s => s.bind fun a => (↑(E a) : Multiset β)
      map_zero' := Multiset.zero_bind _
      map_add' := fun s t => Multiset.add_bind s t _ }
  have hcoe : ∀ m : List α, F ↑m = ↑(m.flatMap E) := fun m => Multiset.coe_bind m E
  calc (∑ i : Fin n, (↑((l.filter fun a => decide (f a = i)).flatMap E) : Multiset β))
      = ∑ i : Fin n, F ↑(l.filter fun a => decide (f a = i)) :=
        Finset.sum_congr rfl fun i _ => (hcoe _).symm
    _ = F (∑ i : Fin n, (↑(l.filter fun a => decide (f a = i)) : Multiset α)) :=
        (map_sum F _ _).symm
    _ = F ↑l := by rw [sum_coe_filter_partition]
    _ = ↑(l.flatMap E) := hcoe l

/-! ### Key, hash and partition lemmas -/

/-- A hash-table match forces the two key values to be equal (and
non-NULL). -/
theorem hmatch_keys {K : Type} [DecidableEq K] {J : JoinParams B P K} {b : B} {p : P}
    (h : hmatch J b p = true) : J.keyB b = J.keyP p ∧ (J.keyB b).isSome = true := by
  unfold hmatch at h
  cases hb : J.keyB b with
  | none => rw [hb] at h; cases J.keyP p <;> simp at h
  | some kb =>
      cases hp : J.keyP p with
      | none => rw [hb, hp] at h; simp at h
      | some kp =>
          rw [hb, hp] at h
          simp only [Bool.and_eq_true, decide_eq_true_eq] at h
          simp [h.1]

/-- A matching pair hashes to the same partition at every level. -/
theorem hmatch_same_partition {K : Type} [DecidableEq K] {J : JoinParams B P K} {b : B}
    {p : P} (h : hmatch J b p = true) (L : Nat) :
    J.hashL L (J.keyB b) = J.hashL L (J.keyP p) := by
  rw [(hmatch_keys h).1]

/-- Restricting the build side to the probe row's own partition does not
change the set of matching build rows. -/
theorem matches_partition {K : Type} [DecidableEq K] (J : JoinParams B P K) (L : Nat)
    (i : Fin PARTITION_FANOUT) (build : List B) {p : P}
    (hp : J.hashL L (J.keyP p) = i) :
    (buildPartitionRows J L i build).filter (fun b => hmatch J b p)
      = build.filter fun b => hmatch J b p := by
  unfold buildPartitionRows
  rw [List.filter_filter]
  refine List.filter_congr fun b _ => ?_
  cases hb : hmatch J b p
  · simp [hb]
  · rw [hmatch_same_partition hb, hp]
    simp [hb]

/-- Restricting the build side to the probe row's own partition does not
change whether the probe row has a match. -/
theorem hasMatch_partition {K : Type} [DecidableEq K] (J : JoinParams B P K) (L : Nat)
    (i : Fin PARTITION_FANOUT) (build : List B) {p : P}
    (hp : J.hashL L (J.keyP p) = i) :
    hasMatch J (buildPartitionRows J L i build) p = hasMatch J build p := by
  unfold hasMatch buildPartitionRows
  rw [List.any_filter]
  rw [Bool.eq_iff_iff]
  simp only [List.any_eq_true, Bool.and_eq_true, decide_eq_true_eq]
  constructor
  · rintro ⟨b, hb, _, hm⟩; exact ⟨b, hb, hm⟩
  · rintro ⟨b, hb, hm⟩
    refine ⟨b, hb, ?_, hm⟩
    rw [hmatch_same_partition hm, hp]

/-- Restricting the probe side to the build row's own partition does not
change whether the build row is matched. -/
theorem buildMatched_partition {K : Type} [DecidableEq K] (J : JoinParams B P K) (L : Nat)
    (i : Fin PARTITION_FANOUT) (probe : List P) {b : B}
    (hb : J.hashL L (J.keyB b) = i) :
    buildMatched J (probePartitionRows J L i probe) b = buildMatched J probe b := by
  unfold buildMatched probePartitionRows
  rw [List.any_filter]
  rw [Bool.eq_iff_iff]
  simp only [List.any_eq_true, Bool.and_eq_true, decide_eq_true_eq]
  constructor
  · rintro ⟨p, hp, _, hm⟩; exact ⟨p, hp, hm⟩
  · rintro ⟨p, hp, hm⟩
    refine ⟨p, hp, ?_, hm⟩
    rw [← hmatch_same_partition hm, hb]

/-! ### The in-memory probe pass -/

/-- One probe step never changes the stored build rows, only the matched
flags. -/
theorem ProcessProbeRow_fst_rows {K : Type} [DecidableEq K] (op : TJoinOp)
    (J : JoinParams B P K) (bt : List (B × Bool)) (p : P) :
    ((ProcessProbeRow op J bt p).2).map Prod.fst = bt.map Prod.fst := by
  cases hm : marksMatches op
  · simp [ProcessProbeRow, hm]
  · simp only [ProcessProbeRow, hm, if_true]
    rw [List.map_map]
    refine List.map_congr_left fun e _ => ?_
    by_cases h : hmatch J e.1 p = true <;> simp [h]

/-- The emission of one probe step for every variant except right semi
depends only on the build-row values. -/
theorem ProcessProbeRow_out_of_ne_rs {K : Type} [DecidableEq K] {op : TJoinOp}
    (hop : op ≠ .RIGHT_SEMI_JOIN) (J : JoinParams B P K) (bt : List (B × Bool)) (p : P) :
    (ProcessProbeRow op J bt p).1 = inlineEmit op J (bt.map Prod.fst) p := by
  cases op <;> first | rfl | exact absurd rfl hop

/-- The emission of one right-semi probe step. -/
theorem ProcessProbeRow_out_rs {K : Type} [DecidableEq K] (J : JoinParams B P K)
    (bt : List (B × Bool)) (p : P) :
    (ProcessProbeRow .RIGHT_SEMI_JOIN J bt p).1
      = (bt.filter fun e => !e.2 && hmatch J e.1 p).map
          fun e => ((some e.1 : Option B), (none : Option P)) := rfl

/-- Matched-flag update of one probe step for the marking variants. -/
theorem ProcessProbeRow_flags_of_marks {K : Type} [DecidableEq K] {op : TJoinOp}
    (hm : marksMatches op = true) (J : JoinParams B P K) (bt : List (B × Bool)) (p : P) :
    (ProcessProbeRow op J bt p).2
      = bt.map fun e => if hmatch J e.1 p then (e.1, true) else e := by
  simp [ProcessProbeRow, hm]

/-- The non-marking variants leave the flags untouched. -/
theorem ProcessProbeRow_flags_of_not_marks {K : Type} [DecidableEq K] {op : TJoinOp}
    (hm : marksMatches op = false) (J : JoinParams B P K) (bt : List (B × Bool)) (p : P) :
    (ProcessProbeRow op J bt p).2 = bt := by
  simp [ProcessProbeRow, hm]

/-- Emission of the probe loop for every variant except right semi:
each probe row contributes its per-row emission against the build-row
values. -/
theorem processProbeRows_out_of_ne_rs {K : Type} [DecidableEq K] {op : TJoinOp}
    (hop : op ≠ .RIGHT_SEMI_JOIN) (J : JoinParams B P K) (bt : List (B × Bool))
    (ps : List P) :
    (processProbeRows op J bt ps).1 = ps.flatMap (inlineEmit op J (bt.map Prod.fst)) := by
  induction ps generalizing bt with
  | nil => rfl
  | cons p ps ih =>
      simp only [processProbeRows, List.flatMap_cons]
      rw [ih, ProcessProbeRow_fst_rows, ProcessProbeRow_out_of_ne_rs hop]

/-- Flags after the probe loop for the marking variants: an entry is
marked exactly when some processed probe row matches it. -/
theorem processProbeRows_flags_of_marks {K : Type} [DecidableEq K] {op : TJoinOp}
    (hm : marksMatches op = true) (J : JoinParams B P K) (bt : List (B × Bool))
    (ps : List P) :
    (processProbeRows op J bt ps).2
      = bt.map fun e => (e.1, e.2 || ps.any fun p => hmatch J e.1 p) := by
  induction ps generalizing bt with
  | nil =>
      have h : (fun (e : B × Bool) => (e.1, e.2 || List.any [] fun p => hmatch J e.1 p))
          = fun e => e := by
        funext e; simp
      simp only [processProbeRows, h]
      exact (List.map_id' bt).symm
  | cons p ps ih =>
      simp only [processProbeRows]
      rw [ih, ProcessProbeRow_flags_of_marks hm, List.map_map]
      refine List.map_congr_left fun e _ => ?_
      by_cases h : hmatch J e.1 p = true <;> simp [h, List.any_cons]

/-- The non-marking variants leave the flags untouched across the loop. -/
theorem processProbeRows_flags_of_not_marks {K : Type} [DecidableEq K] {op : TJoinOp}
    (hm : marksMatches op = false) (J : JoinParams B P K) (bt : List (B × Bool))
    (ps : List P) : (processProbeRows op J bt ps).2 = bt := by
  induction ps generalizing bt with
  | nil => rfl
  | cons p ps ih =>
      simp only [processProbeRows]
      rw [ih, ProcessProbeRow_flags_of_not_marks hm]

/-- Attaching fresh matched flags and projecting them away is the
identity. -/
theorem map_fst_mk_false {β : Type} (l : List β) :
    ((l.map fun b => (b, false)).map Prod.fst) = l := by
  rw [List.map_map]
  exact List.map_id' l

/-- Emission of the right-semi probe loop: every build entry that is
unmatched on entry and matched by some processed probe row is emitted
exactly once. -/
theorem processProbeRows_rs_perm {K : Type} [DecidableEq K] (J : JoinParams B P K)
    (bt : List (B × Bool)) (ps : List P) :
    ((processProbeRows .RIGHT_SEMI_JOIN J bt ps).1).Perm
      ((bt.filter fun e => !e.2 && ps.any fun p => hmatch J e.1 p).map
        fun e => ((some e.1 : Option B), (none : Option P))) := by
  induction ps generalizing bt with
  | nil =>
      have h : (bt.filter fun e => !e.2 && List.any [] fun p => hmatch J e.1 p) = [] := by
        rw [show (fun (e : B × Bool) => !e.2 && List.any [] fun p => hmatch J e.1 p)
              = fun _ => false from by funext e; simp]
        exact List.filter_false bt
      simp [processProbeRows, h]
  | cons p ps ih =>
      simp only [processProbeRows]
      rw [ProcessProbeRow_flags_of_marks
        (show marksMatches .RIGHT_SEMI_JOIN = true from rfl), ProcessProbeRow_out_rs]
      have hrec := ih (bt.map fun e => if hmatch J e.1 p then (e.1, true) else e)
      rw [List.filter_map, List.map_map] at hrec
      have hfc : (bt.filter
            ((fun e => !e.2 && ps.any fun q => hmatch J e.1 q) ∘
              fun e => if hmatch J e.1 p then (e.1, true) else e))
          = bt.filter fun e => !e.2 && (!hmatch J e.1 p && ps.any fun q => hmatch J e.1 q) := by
        refine List.filter_congr fun e _ => ?_
        by_cases h : hmatch J e.1 p = true <;> simp [Function.comp, h]
      have hgc : ∀ e ∈ bt.filter fun e =>
            !e.2 && (!hmatch J e.1 p && ps.any fun q => hmatch J e.1 q),
          ((fun e => ((some e.1 : Option B), (none : Option P))) ∘
            fun e => if hmatch J e.1 p then (e.1, true) else e) e
            = ((some e.1 : Option B), (none : Option P)) := by
        intro e _
        by_cases h : hmatch J e.1 p = true <;> simp [Function.comp, h]
      rw [hfc, List.map_congr_left hgc] at hrec
      refine ((hrec.append_left _).trans ?_)
      rw [← List.map_append]
      refine List.Perm.map _ ?_
      have hdisj : ∀ e ∈ bt, (!e.2 && hmatch J e.1 p) = true →
          (!e.2 && (!hmatch J e.1 p && ps.any fun q => hmatch J e.1 q)) = false := by
        intro e _ h
        simp only [Bool.and_eq_true] at h
        simp [h.2]
      refine (filter_or_of_disjoint bt hdisj).trans ?_
      rw [List.filter_congr fun e _ => ?_]
      cases h2 : e.2 <;> cases h : hmatch J e.1 p <;>
        simp [List.any_cons, h]

/-- Flags after running the probe loop from freshly built hash tables,
for the marking variants: an entry is marked exactly when globally
matched. -/
theorem flags_after_pass {K : Type} [DecidableEq K] {op : TJoinOp}
    (hm : marksMatches op = true) (J : JoinParams B P K) (build : List B) (probe : List P) :
    (processProbeRows op J (build.map fun b => (b, false)) probe).2
      = build.map fun b => (b, buildMatched J probe b) := by
  rw [processProbeRows_flags_of_marks hm, List.map_map]
  refine List.map_congr_left fun b _ => ?_
  simp [Function.comp, buildMatched]

/-- The marking variants include all the sweep variants. -/
theorem marks_of_uses {op : TJoinOp} (hu : usesOutputBuildPartitions op = true) :
    marksMatches op = true := by
  cases op <;> first | rfl | exact absurd hu (by decide)

/-- The unmatched-build sweep after a full probe pass emits exactly the
globally unmatched build rows, once each. -/
theorem sweep_after_pass {K : Type} [DecidableEq K] {op : TJoinOp}
    (hu : usesOutputBuildPartitions op = true) (J : JoinParams B P K) (build : List B)
    (probe : List P) :
    OutputUnmatchedBuild op ((processProbeRows op J (build.map fun b => (b, false)) probe).2)
      = (build.filter fun b => !buildMatched J probe b).map
          fun b => ((some b : Option B), (none : Option P)) := by
  rw [flags_after_pass (marks_of_uses hu)]
  simp only [OutputUnmatchedBuild, hu, if_true]
  rw [List.filter_map, List.map_map]
  rw [show (build.filter ((fun (e : B × Bool) => !e.2) ∘ fun b => (b, buildMatched J probe b)))
        = build.filter fun b => !buildMatched J probe b from
      List.filter_congr fun b _ => rfl]
  exact List.map_congr_left fun b _ => rfl

/-- The matched part of a probe-driven emission is the inner-pair list up
to permutation: unmatched probe rows contribute nothing. -/
theorem matched_flatMap_perm_innerPairs {K : Type} [DecidableEq K] (J : JoinParams B P K)
    (build : List B) (probe : List P) :
    ((probe.filter fun p => hasMatch J build p).flatMap fun p =>
        (build.filter fun b => hmatch J b p).map
          fun b => ((some b : Option B), (some p : Option P))).Perm
      (innerPairs J build probe) := by
  have h := flatMap_split_perm probe (fun p => hasMatch J build p)
    (fun p => (build.filter fun b => hmatch J b p).map
      fun b => ((some b : Option B), (some p : Option P)))
  have h2 : ((probe.filter fun p => !hasMatch J build p).flatMap fun p =>
      (build.filter fun b => hmatch J b p).map
        fun b => ((some b : Option B), (some p : Option P))) = [] := by
    refine flatMap_eq_nil_of_forall _ _ fun p hp => ?_
    rw [List.mem_filter] at hp
    have hno : hasMatch J build p = false := by
      have := hp.2; revert this; cases hasMatch J build p <;> simp
    have : build.filter (fun b => hmatch J b p) = [] := by
      rw [List.filter_eq_nil_iff]
      intro b hb hmb
      have : build.any (fun b => hmatch J b p) = true := List.any_eq_true.mpr ⟨b, hb, hmb⟩
      rw [show build.any (fun b => hmatch J b p) = hasMatch J build p from rfl, hno] at this
      cases this
    rw [this]
    rfl
  rw [h2, List.append_nil] at h
  exact h.symm

/-- The right-semi probe loop starting from freshly built hash tables
emits each matched build row exactly once, in total. -/
theorem rs_pass_perm_matched {K : Type} [DecidableEq K] (J : JoinParams B P K)
    (build : List B) (probe : List P) :
    ((processProbeRows .RIGHT_SEMI_JOIN J (build.map fun b => (b, false)) probe).1).Perm
      ((build.filter fun b => buildMatched J probe b).map
        fun b => ((some b : Option B), (none : Option P))) := by
  have h := processProbeRows_rs_perm J (build.map fun b => (b, false)) probe
  rw [List.filter_map, List.map_map] at h
  rw [show (build.filter ((fun (e : B × Bool) => !e.2 && probe.any fun p => hmatch J e.1 p)
          ∘ fun b => (b, false)))
        = build.filter fun b => buildMatched J probe b from
      List.filter_congr fun b _ => by simp [Function.comp, buildMatched]] at h
  rw [List.map_congr_left (fun b _ => rfl :
    ∀ b ∈ build.filter fun b => buildMatched J probe b,
      ((fun (e : B × Bool) => ((some e.1 : Option B), (none : Option P)))
        ∘ fun b => (b, false)) b = ((some b : Option B), (none : Option P)))] at h
  exact h

/-- The in-memory processing of one partition pair produces, as a
multiset, exactly the reference join of that pair (with the hash-loop
emission shape of the variant). -/
theorem inMemoryJoin_ref {K : Type} [DecidableEq K] (op : TJoinOp) (J : JoinParams B P K)
    (build : List B) (probe : List P) :
    (inMemoryJoin op J build probe).Perm (refJoin (hashLoopOp op) J build probe) := by
  cases op with
  | INNER_JOIN =>
      show (inMemoryJoin .INNER_JOIN J build probe).Perm (refJoin .INNER_JOIN J build probe)
      simp only [inMemoryJoin]
      rw [processProbeRows_out_of_ne_rs (by decide) J _ probe, map_fst_mk_false]
      rw [show OutputUnmatchedBuild .INNER_JOIN
          ((processProbeRows .INNER_JOIN J (build.map fun b => (b, false)) probe).2)
          = ([] : List (JoinOut B P)) from rfl, List.append_nil]
      exact List.Perm.refl _
  | LEFT_OUTER_JOIN =>
      show (inMemoryJoin .LEFT_OUTER_JOIN J build probe).Perm
        (refJoin .LEFT_OUTER_JOIN J build probe)
      simp only [inMemoryJoin]
      rw [processProbeRows_out_of_ne_rs (by decide) J _ probe, map_fst_mk_false]
      rw [show OutputUnmatchedBuild .LEFT_OUTER_JOIN
          ((processProbeRows .LEFT_OUTER_JOIN J (build.map fun b => (b, false)) probe).2)
          = ([] : List (JoinOut B P)) from rfl, List.append_nil]
      rw [show probe.flatMap (inlineEmit .LEFT_OUTER_JOIN J build)
          = probe.flatMap (fun p => if (build.filter fun b => hmatch J b p).isEmpty
              then [((none : Option B), (some p : Option P))]
              else (build.filter fun b => hmatch J b p).map
                fun b => ((some b : Option B), (some p : Option P))) from rfl]
      refine (flatMap_ite_perm probe _ _ _).trans ?_
      rw [show (probe.filter fun p => (build.filter fun b => hmatch J b p).isEmpty)
            = probe.filter fun p => !hasMatch J build p from
          List.filter_congr fun p _ => isEmpty_filter_eq build _]
      rw [show (probe.filter fun p => !(build.filter fun b => hmatch J b p).isEmpty)
            = probe.filter fun p => hasMatch J build p from
          List.filter_congr fun p _ => by rw [isEmpty_filter_eq build _, Bool.not_not]; rfl]
      rw [flatMap_singleton_eq_map]
      refine List.perm_append_comm.trans ?_
      exact (matched_flatMap_perm_innerPairs J build probe).append_right _
  | RIGHT_OUTER_JOIN =>
      show (inMemoryJoin .RIGHT_OUTER_JOIN J build probe).Perm
        (refJoin .RIGHT_OUTER_JOIN J build probe)
      simp only [inMemoryJoin]
      rw [processProbeRows_out_of_ne_rs (by decide) J _ probe, map_fst_mk_false,
        sweep_after_pass (show usesOutputBuildPartitions .RIGHT_OUTER_JOIN = true from rfl)]
      exact List.Perm.refl _
  | FULL_OUTER_JOIN =>
      show (inMemoryJoin .FULL_OUTER_JOIN J build probe).Perm
        (refJoin .FULL_OUTER_JOIN J build probe)
      simp only [inMemoryJoin]
      rw [processProbeRows_out_of_ne_rs (by decide) J _ probe, map_fst_mk_false,
        sweep_after_pass (show usesOutputBuildPartitions .FULL_OUTER_JOIN = true from rfl)]
      rw [show probe.flatMap (inlineEmit .FULL_OUTER_JOIN J build)
          = probe.flatMap (fun p => if (build.filter fun b => hmatch J b p).isEmpty
              then [((none : Option B), (some p : Option P))]
              else (build.filter fun b => hmatch J b p).map
                fun b => ((some b : Option B), (some p : Option P))) from rfl]
      refine ((flatMap_ite_perm probe _ _ _).append_right _).trans ?_
      rw [show (probe.filter fun p => (build.filter fun b => hmatch J b p).isEmpty)
            = probe.filter fun p => !hasMatch J build p from
          List.filter_congr fun p _ => isEmpty_filter_eq build _]
      rw [show (probe.filter fun p => !(build.filter fun b => hmatch J b p).isEmpty)
            = probe.filter fun p => hasMatch J build p from
          List.filter_congr fun p _ => by rw [isEmpty_filter_eq build _, Bool.not_not]; rfl]
      rw [flatMap_singleton_eq_map]
      refine ((List.perm_append_comm.trans
        ((matched_flatMap_perm_innerPairs J build probe).append_right _)).append_right _)
  | LEFT_SEMI_JOIN =>
      show (inMemoryJoin .LEFT_SEMI_JOIN J build probe).Perm
        (refJoin .LEFT_SEMI_JOIN J build probe)
      simp only [inMemoryJoin]
      rw [processProbeRows_out_of_ne_rs (by decide) J _ probe, map_fst_mk_false]
      rw [show OutputUnmatchedBuild .LEFT_SEMI_JOIN
          ((processProbeRows .LEFT_SEMI_JOIN J (build.map fun b => (b, false)) probe).2)
          = ([] : List (JoinOut B P)) from rfl, List.append_nil]
      rw [show probe.flatMap (inlineEmit .LEFT_SEMI_JOIN J build)
          = probe.flatMap (fun p => if (build.filter fun b => hmatch J b p).isEmpty
              then ([] : List (JoinOut B P))
              else [((none : Option B), (some p : Option P))]) from rfl]
      refine (flatMap_ite_perm probe _ _ _).trans ?_
      rw [show ((probe.filter fun p => (build.filter fun b => hmatch J b p).isEmpty).flatMap
            fun _ => ([] : List (JoinOut B P))) = [] from
          flatMap_eq_nil_of_forall _ _ fun _ _ => rfl, List.nil_append]
      rw [show (probe.filter fun p => !(build.filter fun b => hmatch J b p).isEmpty)
            = probe.filter fun p => hasMatch J build p from
          List.filter_congr fun p _ => by rw [isEmpty_filter_eq build _, Bool.not_not]; rfl]
      rw [flatMap_singleton_eq_map]
      exact List.Perm.refl _
  | LEFT_ANTI_JOIN =>
      show (inMemoryJoin .LEFT_ANTI_JOIN J build probe).Perm
        (refJoin .LEFT_ANTI_JOIN J build probe)
      simp only [inMemoryJoin]
      rw [processProbeRows_out_of_ne_rs (by decide) J _ probe, map_fst_mk_false]
      rw [show OutputUnmatchedBuild .LEFT_ANTI_JOIN
          ((processProbeRows .LEFT_ANTI_JOIN J (build.map fun b => (b, false)) probe).2)
          = ([] : List (JoinOut B P)) from rfl, List.append_nil]
      rw [show probe.flatMap (inlineEmit .LEFT_ANTI_JOIN J build)
          = probe.flatMap (fun p => if (build.filter fun b => hmatch J b p).isEmpty
              then [((none : Option B), (some p : Option P))]
              else ([] : List (JoinOut B P))) from rfl]
      refine (flatMap_ite_perm probe _ _ _).trans ?_
      rw [show ((probe.filter fun p => !(build.filter fun b => hmatch J b p).isEmpty).flatMap
            fun _ => ([] : List (JoinOut B P))) = [] from
          flatMap_eq_nil_of_forall _ _ fun _ _ => rfl, List.append_nil]
      rw [show (probe.filter fun p => (build.filter fun b => hmatch J b p).isEmpty)
            = probe.filter fun p => !hasMatch J build p from
          List.filter_congr fun p _ => isEmpty_filter_eq build _]
      rw [flatMap_singleton_eq_map]
      exact List.Perm.refl _
  | NULL_AWARE_LEFT_ANTI_JOIN =>
      show (inMemoryJoin .NULL_AWARE_LEFT_ANTI_JOIN J build probe).Perm
        (refJoin .LEFT_ANTI_JOIN J build probe)
      simp only [inMemoryJoin]
      rw [processProbeRows_out_of_ne_rs (by decide) J _ probe, map_fst_mk_false]
      rw [show OutputUnmatchedBuild .NULL_AWARE_LEFT_ANTI_JOIN
          ((processProbeRows .NULL_AWARE_LEFT_ANTI_JOIN J
            (build.map fun b => (b, false)) probe).2)
          = ([] : List (JoinOut B P)) from rfl, List.append_nil]
      rw [show probe.flatMap (inlineEmit .NULL_AWARE_LEFT_ANTI_JOIN J build)
          = probe.flatMap (fun p => if (build.filter fun b => hmatch J b p).isEmpty
              then [((none : Option B), (some p : Option P))]
              else ([] : List (JoinOut B P))) from rfl]
      refine (flatMap_ite_perm probe _ _ _).trans ?_
      rw [show ((probe.filter fun p => !(build.filter fun b => hmatch J b p).isEmpty).flatMap
            fun _ => ([] : List (JoinOut B P))) = [] from
          flatMap_eq_nil_of_forall _ _ fun _ _ => rfl, List.append_nil]
      rw [show (probe.filter fun p => (build.filter fun b => hmatch J b p).isEmpty)
            = probe.filter fun p => !hasMatch J build p from
          List.filter_congr fun p _ => isEmpty_filter_eq build _]
      rw [flatMap_singleton_eq_map]
      exact List.Perm.refl _
  | RIGHT_SEMI_JOIN =>
      show (inMemoryJoin .RIGHT_SEMI_JOIN J build probe).Perm
        (refJoin .RIGHT_SEMI_JOIN J build probe)
      simp only [inMemoryJoin]
      rw [show OutputUnmatchedBuild .RIGHT_SEMI_JOIN
          ((processProbeRows .RIGHT_SEMI_JOIN J (build.map fun b => (b, false)) probe).2)
          = ([] : List (JoinOut B P)) from rfl, List.append_nil]
      exact rs_pass_perm_matched J build probe
  | RIGHT_ANTI_JOIN =>
      show (inMemoryJoin .RIGHT_ANTI_JOIN J build probe).Perm
        (refJoin .RIGHT_ANTI_JOIN J build probe)
      simp only [inMemoryJoin]
      rw [processProbeRows_out_of_ne_rs (by decide) J _ probe, map_fst_mk_false,
        sweep_after_pass (show usesOutputBuildPartitions .RIGHT_ANTI_JOIN = true from rfl)]
      rw [show probe.flatMap (inlineEmit .RIGHT_ANTI_JOIN J build)
          = ([] : List (JoinOut B P)) from
        flatMap_eq_nil_of_forall _ _ fun _ _ => rfl, List.nil_append]
      exact List.Perm.refl _

/-! ### Hash partitioning preserves the reference join -/

/-- Mapping a filtered list is flat-mapping a guarded singleton. -/
theorem filter_map_eq_flatMap {α β : Type} (l : List α) (c : α → Bool) (f : α → β) :
    (l.filter c).map f = l.flatMap fun a => if c a then [f a] else [] := by
  induction l with
  | nil => rfl
  | cons a l ih => cases hc : c a <;> simp [List.filter_cons, List.flatMap_cons, hc, ih]

/-- Pointwise-equal predicates agree on `any`. -/
theorem any_congr_mem {α : Type} {l : List α} {f g : α → Bool}
    (h : ∀ a ∈ l, f a = g a) : l.any f = l.any g := by
  induction l with
  | nil => rfl
  | cons a l ih =>
      simp only [List.any_cons, h a (List.mem_cons_self a l),
        ih fun a ha => h a (List.mem_cons_of_mem _ ha)]

/-- Splitting the inner pairs along the hash partitions of both sides
recovers the inner pairs of the whole inputs. -/
theorem innerPairs_split {K : Type} [DecidableEq K] (J : JoinParams B P K) (L : Nat)
    (build : List B) (probe : List P) :
    (∑ i : Fin PARTITION_FANOUT,
        (↑(innerPairs J (buildPartitionRows J L i build) (probePartitionRows J L i probe)) :
          Multiset (JoinOut B P)))
      = ↑(innerPairs J build probe) := by
  have hstep : ∀ i : Fin PARTITION_FANOUT,
      innerPairs J (buildPartitionRows J L i build) (probePartitionRows J L i probe)
        = (probe.filter fun p => decide (J.hashL L (J.keyP p) = i)).flatMap
            fun p => (build.filter fun b => hmatch J b p).map
              fun b => ((some b : Option B), (some p : Option P)) := by
    intro i
    refine flatMap_congr_mem fun p hp => ?_
    unfold probePartitionRows at hp
    rw [List.mem_filter] at hp
    have hpi : J.hashL L (J.keyP p) = i := by simpa using hp.2
    rw [matches_partition J L i build hpi]
  rw [Finset.sum_congr rfl fun i _ =>
    congrArg (fun l : List (JoinOut B P) => (↑l : Multiset (JoinOut B P))) (hstep i)]
  exact sum_coe_flatMap_partition probe (fun p => J.hashL L (J.keyP p)) _

/-- Splitting a probe-driven filtered emission along the hash partitions
recovers the emission over the whole inputs; `g` transforms the match
flag, so this covers both the matched (semi) and unmatched (outer, anti)
emissions. -/
theorem hasMatch_filter_map_split {K : Type} [DecidableEq K] (J : JoinParams B P K)
    (L : Nat) (build : List B) (probe : List P) (g : Bool → Bool) (f : P → JoinOut B P) :
    (∑ i : Fin PARTITION_FANOUT,
        (↑(((probePartitionRows J L i probe).filter
              fun p => g (hasMatch J (buildPartitionRows J L i build) p)).map f) :
          Multiset (JoinOut B P)))
      = ↑((probe.filter fun p => g (hasMatch J build p)).map f) := by
  have hstep : ∀ i : Fin PARTITION_FANOUT,
      ((probePartitionRows J L i probe).filter
          fun p => g (hasMatch J (buildPartitionRows J L i build) p)).map f
        = (probe.filter fun p => decide (J.hashL L (J.keyP p) = i)).flatMap
            fun p => if g (hasMatch J build p) then [f p] else [] := by
    intro i
    rw [filter_map_eq_flatMap]
    refine flatMap_congr_mem fun p hp => ?_
    unfold probePartitionRows at hp
    rw [List.mem_filter] at hp
    have hpi : J.hashL L (J.keyP p) = i := by simpa using hp.2
    rw [hasMatch_partition J L i build hpi]
  rw [Finset.sum_congr rfl fun i _ =>
    congrArg (fun l : List (JoinOut B P) => (↑l : Multiset (JoinOut B P))) (hstep i)]
  rw [sum_coe_flatMap_partition probe (fun p => J.hashL L (J.keyP p)) _]
  rw [filter_map_eq_flatMap]

/-- Splitting a build-driven filtered emission along the hash partitions
recovers the emission over the whole inputs. -/
theorem buildMatched_filter_map_split {K : Type} [DecidableEq K] (J : JoinParams B P K)
    (L : Nat) (build : List B) (probe : List P) (g : Bool → Bool) (f : B → JoinOut B P) :
    (∑ i : Fin PARTITION_FANOUT,
        (↑(((buildPartitionRows J L i build).filter
              fun b => g (buildMatched J (probePartitionRows J L i probe) b)).map f) :
          Multiset (JoinOut B P)))
      = ↑((build.filter fun b => g (buildMatched J probe b)).map f) := by
  have hstep : ∀ i : Fin PARTITION_FANOUT,
      ((buildPartitionRows J L i build).filter
          fun b => g (buildMatched J (probePartitionRows J L i probe) b)).map f
        = (build.filter fun b => decide (J.hashL L (J.keyB b) = i)).flatMap
            fun b => if g (buildMatched J probe b) then [f b] else [] := by
    intro i
    rw [filter_map_eq_flatMap]
    refine flatMap_congr_mem fun b hb => ?_
    unfold buildPartitionRows at hb
    rw [List.mem_filter] at hb
    have hbi : J.hashL L (J.keyB b) = i := by simpa using hb.2
    rw [buildMatched_partition J L i probe hbi]
  rw [Finset.sum_congr rfl fun i _ =>
    congrArg (fun l : List (JoinOut B P) => (↑l : Multiset (JoinOut B P))) (hstep i)]
  rw [sum_coe_flatMap_partition build (fun b => J.hashL L (J.keyB b)) _]
  rw [filter_map_eq_flatMap]

/-- Hash partitioning both inputs at any level and joining the partition
pairs independently produces, in total, the reference join of the whole
inputs — for every variant except the null-aware one, whose NULL keys
cross partition boundaries. -/
theorem refJoin_partition_split {K : Type} [DecidableEq K] (op : TJoinOp)
    (hop : op ≠ .NULL_AWARE_LEFT_ANTI_JOIN) (J : JoinParams B P K) (L : Nat)
    (build : List B) (probe : List P) :
    (∑ i : Fin PARTITION_FANOUT,
        (↑(refJoin op J (buildPartitionRows J L i build) (probePartitionRows J L i probe)) :
          Multiset (JoinOut B P)))
      = ↑(refJoin op J build probe) := by
  cases op with
  | INNER_JOIN => exact innerPairs_split J L build probe
  | LEFT_OUTER_JOIN =>
      simp only [refJoin, ← Multiset.coe_add, Finset.sum_add_distrib]
      rw [innerPairs_split J L build probe,
        hasMatch_filter_map_split J L build probe (fun m => !m) _]
  | RIGHT_OUTER_JOIN =>
      simp only [refJoin, ← Multiset.coe_add, Finset.sum_add_distrib]
      rw [innerPairs_split J L build probe,
        buildMatched_filter_map_split J L build probe (fun m => !m) _]
  | FULL_OUTER_JOIN =>
      simp only [refJoin, ← Multiset.coe_add, Finset.sum_add_distrib]
      rw [innerPairs_split J L build probe,
        hasMatch_filter_map_split J L build probe (fun m => !m) _,
        buildMatched_filter_map_split J L build probe (fun m => !m) _]
  | LEFT_SEMI_JOIN =>
      exact hasMatch_filter_map_split J L build probe (fun m => m) _
  | LEFT_ANTI_JOIN =>
      exact hasMatch_filter_map_split J L build probe (fun m => !m) _
  | RIGHT_SEMI_JOIN =>
      exact buildMatched_filter_map_split J L build probe (fun m => m) _
  | RIGHT_ANTI_JOIN =>
      exact buildMatched_filter_map_split J L build probe (fun m => !m) _
  | NULL_AWARE_LEFT_ANTI_JOIN => exact absurd rfl hop

/-! ### Correctness of the spill and repartition machine -/

/-- Combining partition results succeeds with the concatenation of their
outputs, so the total multiset is the sum of the partitions'
multisets. -/
theorem combinePartitions_ok {γ : Type} (f : Fin PARTITION_FANOUT → Except JoinErr (List γ))
    (g : Fin PARTITION_FANOUT → List γ)
    (hfg : ∀ i, ∀ o : List γ, f i = .ok o → (↑o : Multiset γ) = ↑(g i)) :
    ∀ (l : List (Fin PARTITION_FANOUT)) (out : List γ), combinePartitions f l = .ok out →
      (↑out : Multiset γ) = (l.map fun i => (↑(g i) : Multiset γ)).sum := by
  intro l
  induction l with
  | nil =>
      intro out h
      simp only [combinePartitions, Except.ok.injEq] at h
      subst h
      rfl
  | cons i is ih =>
      intro out h
      simp only [combinePartitions] at h
      cases hfi : f i with
      | error e => rw [hfi] at h; simp only [Except.bind, bind] at h; exact Except.noConfusion h
      | ok o =>
          rw [hfi] at h
          cases hrest : combinePartitions f is with
          | error e =>
              rw [hrest] at h
              simp only [Except.bind, bind] at h
              exact Except.noConfusion h
          | ok r =>
              rw [hrest] at h
              simp only [Except.bind, bind, Except.ok.injEq] at h
              subst h
              rw [List.map_cons, List.sum_cons, ← Multiset.coe_add,
                hfg i o hfi, ih r hrest]

/-- An error from combining partition results comes from one of the
partitions. -/
theorem combinePartitions_error {γ : Type}
    (f : Fin PARTITION_FANOUT → Except JoinErr (List γ)) :
    ∀ (l : List (Fin PARTITION_FANOUT)) (e : JoinErr), combinePartitions f l = .error e →
      ∃ i ∈ l, f i = .error e := by
  intro l
  induction l with
  | nil => intro e h; exact Except.noConfusion h
  | cons i is ih =>
      intro e h
      simp only [combinePartitions] at h
      cases hfi : f i with
      | error e' =>
          rw [hfi] at h
          simp only [Except.bind, bind, Except.error.injEq] at h
          subst h
          exact ⟨i, List.mem_cons_self i is, hfi⟩
      | ok o =>
          rw [hfi] at h
          cases hrest : combinePartitions f is with
          | error e' =>
              rw [hrest] at h
              simp only [Except.bind, bind, Except.error.injEq] at h
              subst h
              obtain ⟨j, hj, hfj⟩ := ih e' hrest
              exact ⟨j, List.mem_cons_of_mem _ hj, hfj⟩
          | ok r =>
              rw [hrest] at h
              simp only [Except.bind, bind] at h
              exact Except.noConfusion h

/-- The null-aware variant never reaches the hash loop as itself. -/
theorem hashLoopOp_ne_naaj (op : TJoinOp) :
    hashLoopOp op ≠ .NULL_AWARE_LEFT_ANTI_JOIN := by
  cases op <;> simp [hashLoopOp]

/-- Whenever processing a popped spilled partition pair succeeds, its
output is the reference join of the pair — for every recursion budget,
level, pair of inputs and memory policy. -/
theorem processSpilledPartition_ok {K : Type} [DecidableEq K] (op : TJoinOp)
    (J : JoinParams B P K) :
    ∀ (fuel level : Nat) (build : List B) (probe : List P) (out : List (JoinOut B P)),
      processSpilledPartition op J fuel level build probe = .ok out →
      (↑out : Multiset (JoinOut B P)) = ↑(refJoin (hashLoopOp op) J build probe) := by
  intro fuel
  induction fuel with
  | zero =>
      intro level build probe out h
      exact Except.noConfusion h
  | succ fuel ih =>
      intro level build probe out h
      simp only [processSpilledPartition] at h
      by_cases hfit : J.fits level build = true
      · rw [if_pos hfit] at h
        simp only [Except.ok.injEq] at h
        subst h
        exact Multiset.coe_eq_coe.mpr (inMemoryJoin_ref op J build probe)
      · rw [if_neg hfit] at h
        by_cases hlev : MAX_PARTITION_DEPTH ≤ level
        · rw [if_pos hlev] at h; exact Except.noConfusion h
        · rw [if_neg hlev] at h
          have hok := combinePartitions_ok _
            (fun i => refJoin (hashLoopOp op) J (buildPartitionRows J (level + 1) i build)
              (probePartitionRows J (level + 1) i probe))
            (fun i o hio => ?_) (List.finRange PARTITION_FANOUT) out h
          · rw [hok, ← Fin.sum_univ_def,
              refJoin_partition_split (hashLoopOp op) (hashLoopOp_ne_naaj op) J (level + 1)
                build probe]
          · simp only at hio
            by_cases hsp : J.spill (level + 1) (buildPartitionRows J (level + 1) i build) = true
            · rw [if_pos hsp] at hio
              exact ih (level + 1) _ _ o hio
            · rw [if_neg hsp] at hio
              simp only [Except.ok.injEq] at hio
              subst hio
              exact Multiset.coe_eq_coe.mpr (inMemoryJoin_ref op J _ _)

/-- Whenever the level-0 drive succeeds, its output is the reference
join of the whole inputs (with the hash-loop emission shape). -/
theorem partitionedJoinRun_ok {K : Type} [DecidableEq K] (op : TJoinOp)
    (J : JoinParams B P K) (build : List B) (probe : List P) (out : List (JoinOut B P))
    (h : partitionedJoinRun op J build probe = .ok out) :
    (↑out : Multiset (JoinOut B P)) = ↑(refJoin (hashLoopOp op) J build probe) := by
  unfold partitionedJoinRun at h
  have hok := combinePartitions_ok _
    (fun i => refJoin (hashLoopOp op) J (buildPartitionRows J 0 i build)
      (probePartitionRows J 0 i probe))
    (fun i o hio => ?_) (List.finRange PARTITION_FANOUT) out h
  · rw [hok, ← Fin.sum_univ_def,
      refJoin_partition_split (hashLoopOp op) (hashLoopOp_ne_naaj op) J 0 build probe]
  · simp only at hio
    by_cases hsp : J.spill 0 (buildPartitionRows J 0 i build) = true
    · rw [if_pos hsp] at hio
      exact processSpilledPartition_ok op J _ 0 _ _ o hio
    · rw [if_neg hsp] at hio
      simp only [Except.ok.injEq] at hio
      subst hio
      exact Multiset.coe_eq_coe.mpr (inMemoryJoin_ref op J _ _)

/-! ### The null-aware final phase -/

/-- Projecting the probe halves out of a left-anti emission recovers the
emitted probe rows. -/
theorem filterMap_snd_map_none_some (l : List P) :
    List.filterMap (fun o : JoinOut B P => o.2)
      (l.map fun p => ((none : Option B), (some p : Option P))) = l := by
  induction l with
  | nil => rfl
  | cons p l ih => simp [List.filterMap_cons, ih]

/-- Composition of `EvaluateNullProbe` from a cleared bit-vector with
`OutputNullAwareNullProbe`: exactly the NULL-keyed probe rows matching no
build row under the residual are emitted. -/
theorem nullProbe_pipeline {K : Type} (J : JoinParams B P K) (build : List B)
    (rows : List P) :
    OutputNullAwareNullProbe rows
        (EvaluateNullProbe J build rows (List.replicate rows.length false))
      = rows.filter fun p => !build.any fun b => J.residual b p := by
  induction rows with
  | nil => rfl
  | cons r rs ih =>
      have hstep : EvaluateNullProbe J build (r :: rs) (List.replicate (r :: rs).length false)
          = ((false || build.any fun b => J.residual b r)
              :: EvaluateNullProbe J build rs (List.replicate rs.length false)) := by
        simp [EvaluateNullProbe, List.replicate_succ]
      rw [hstep]
      by_cases h : (build.any fun b => J.residual b r) = true
      · simp only [OutputNullAwareNullProbe, List.zip_cons_cons, List.filterMap_cons, h,
          Bool.false_or, List.filter_cons, Bool.not_true, if_false]
        exact ih
      · have h' : (build.any fun b => J.residual b r) = false := by
          revert h; cases build.any fun b => J.residual b r <;> simp
        rw [show OutputNullAwareNullProbe rs
            (EvaluateNullProbe J build rs (List.replicate rs.length false))
            = (rs.zip (EvaluateNullProbe J build rs (List.replicate rs.length false))).filterMap
                fun pm => if pm.2 then none else some pm.1 from rfl] at ih
        simp [OutputNullAwareNullProbe, List.zip_cons_cons, List.filterMap_cons, h',
          List.filter_cons, ih]

/-- With a NULL probe key, the NAAJ match condition is just the
residual. -/
theorem naajMatch_of_keyP_none {K : Type} [DecidableEq K] {J : JoinParams B P K} {p : P}
    (hp : J.keyP p = none) (b : B) : naajMatch J b p = J.residual b p := by
  unfold naajMatch
  rw [hp]
  cases J.keyB b <;> simp

/-- With a NULL build key, the NAAJ match condition is just the
residual. -/
theorem naajMatch_of_keyB_none {K : Type} [DecidableEq K] {J : JoinParams B P K} {b : B}
    (hb : J.keyB b = none) (p : P) : naajMatch J b p = J.residual b p := by
  unfold naajMatch
  rw [hb]
  simp

/-- With non-NULL keys on both sides, the NAAJ match condition is the
hash-table match condition. -/
theorem naajMatch_of_some_some {K : Type} [DecidableEq K] {J : JoinParams B P K} {b : B}
    {p : P} {kb kp : K} (hb : J.keyB b = some kb) (hp : J.keyP p = some kp) :
    naajMatch J b p = hmatch J b p := by
  unfold naajMatch hmatch
  rw [hb, hp]
  exact Bool.and_comm _ _

/-- For a NULL-keyed probe row, existence of an NAAJ match over the whole
build side is existence of a residual match. -/
theorem naaj_any_of_keyP_none {K : Type} [DecidableEq K] (J : JoinParams B P K)
    (build : List B) {p : P} (hp : J.keyP p = none) :
    (build.any fun b => naajMatch J b p) = build.any fun b => J.residual b p :=
  any_congr_mem fun b _ => naajMatch_of_keyP_none hp b

/-- For a non-NULL-keyed probe row, existence of an NAAJ match over the
whole build side splits into a hash match among the non-NULL-keyed build
rows or a residual match among the NULL-keyed ones. -/
theorem naaj_any_of_keyP_some {K : Type} [DecidableEq K] (J : JoinParams B P K)
    (build : List B) {p : P} (hp : (J.keyP p).isSome = true) :
    (build.any fun b => naajMatch J b p)
      = ((build.filter fun b => (J.keyB b).isSome).any (fun b => hmatch J b p)
          || (build.filter fun b => (J.keyB b).isNone).any fun b => J.residual b p) := by
  obtain ⟨kp, hkp⟩ := Option.isSome_iff_exists.mp hp
  rw [any_split_filter build (fun b => (J.keyB b).isSome) fun b => naajMatch J b p]
  congr 1
  · refine any_congr_mem fun b hb => ?_
    rw [List.mem_filter] at hb
    obtain ⟨kb, hkb⟩ := Option.isSome_iff_exists.mp hb.2
    exact naajMatch_of_some_some hkb hkp
  · rw [show (build.filter fun b => !(J.keyB b).isSome)
        = build.filter fun b => (J.keyB b).isNone from
      List.filter_congr fun b _ => by cases J.keyB b <;> simp]
    refine any_congr_mem fun b hb => ?_
    rw [List.mem_filter] at hb
    exact naajMatch_of_keyB_none (Option.isNone_iff_eq_none.mp hb.2) p

/-- The NAAJ final phase applied to the rows routed by the hash loop
realises the reference null-aware anti-join. -/
theorem naaj_phase_ref {K : Type} [DecidableEq K] (J : JoinParams B P K) (build : List B)
    (probe : List P) (routed : List (JoinOut B P))
    (hr : (↑routed : Multiset (JoinOut B P)) = ↑(refJoin .LEFT_ANTI_JOIN J
        (build.filter fun b => (J.keyB b).isSome)
        (probe.filter fun p => (J.keyP p).isSome))) :
    (↑((((routed.filterMap fun o => o.2).filter
            fun p => !(build.filter fun b => (J.keyB b).isNone).any fun b => J.residual b p)
          ++ OutputNullAwareNullProbe (probe.filter fun p => (J.keyP p).isNone)
              (EvaluateNullProbe J build (probe.filter fun p => (J.keyP p).isNone)
                (List.replicate (probe.filter fun p => (J.keyP p).isNone).length false))).map
          fun p => ((none : Option B), (some p : Option P))) : Multiset (JoinOut B P))
      = ↑(refJoin .NULL_AWARE_LEFT_ANTI_JOIN J build probe) := by
  have hperm : routed.Perm (refJoin .LEFT_ANTI_JOIN J
      (build.filter fun b => (J.keyB b).isSome)
      (probe.filter fun p => (J.keyP p).isSome)) := Multiset.coe_eq_coe.mp hr
  have hcol : (routed.filterMap fun o => o.2).Perm
      ((probe.filter fun p => (J.keyP p).isSome).filter
        fun p => !hasMatch J (build.filter fun b => (J.keyB b).isSome) p) := by
    refine (hperm.filterMap _).trans ?_
    rw [show refJoin .LEFT_ANTI_JOIN J (build.filter fun b => (J.keyB b).isSome)
          (probe.filter fun p => (J.keyP p).isSome)
        = (((probe.filter fun p => (J.keyP p).isSome).filter
            fun p => !hasMatch J (build.filter fun b => (J.keyB b).isSome) p).map
              fun p => ((none : Option B), (some p : Option P))) from rfl]
    rw [filterMap_snd_map_none_some]
  have hout1 : ((routed.filterMap fun o => o.2).filter
        fun p => !(build.filter fun b => (J.keyB b).isNone).any fun b => J.residual b p).Perm
      (probe.filter fun p =>
        ((!(build.filter fun b => (J.keyB b).isNone).any fun b => J.residual b p)
          && (!hasMatch J (build.filter fun b => (J.keyB b).isSome) p)
          && (J.keyP p).isSome)) := by
    refine (hcol.filter _).trans ?_
    rw [List.filter_filter, List.filter_filter]
  have hout2 : OutputNullAwareNullProbe (probe.filter fun p => (J.keyP p).isNone)
        (EvaluateNullProbe J build (probe.filter fun p => (J.keyP p).isNone)
          (List.replicate (probe.filter fun p => (J.keyP p).isNone).length false))
      = probe.filter fun p => (!build.any fun b => J.residual b p) && (J.keyP p).isNone := by
    rw [nullProbe_pipeline, List.filter_filter]
  refine Multiset.coe_eq_coe.mpr ?_
  rw [show refJoin .NULL_AWARE_LEFT_ANTI_JOIN J build probe
      = ((probe.filter fun p => !build.any fun b => naajMatch J b p).map
          fun p => ((none : Option B), (some p : Option P))) from rfl]
  refine List.Perm.map _ ?_
  rw [hout2]
  refine (hout1.append_right _).trans ?_
  have hdisj : ∀ p ∈ probe,
      (((!(build.filter fun b => (J.keyB b).isNone).any fun b => J.residual b p)
          && (!hasMatch J (build.filter fun b => (J.keyB b).isSome) p)
          && (J.keyP p).isSome) = true) →
      (((!build.any fun b => J.residual b p) && (J.keyP p).isNone) = false) := by
    intro p _ hq1
    simp only [Bool.and_eq_true] at hq1
    have := hq1.2
    cases hkp : J.keyP p
    · rw [hkp] at this; exact absurd this (by simp)
    · simp [hkp]
  refine (filter_or_of_disjoint probe hdisj).trans ?_
  refine List.Perm.of_eq (List.filter_congr fun p _ => ?_)
  cases hkp : J.keyP p with
  | none =>
      rw [naaj_any_of_keyP_none J build hkp]
      simp [hkp]
  | some kp =>
      rw [naaj_any_of_keyP_some J build (show (J.keyP p).isSome = true by rw [hkp]; rfl),
        Bool.not_or]
      simp only [hkp, Option.isSome_some, Option.isNone_some, Bool.and_true, Bool.and_false,
        Bool.or_false]
      exact Bool.and_comm _ _

/-- Whenever the operator completes, its total output is the reference
nested-loop join of the variant — the central completeness helper. -/
theorem partitionedHashJoin_ok_ref {K : Type} [DecidableEq K] (op : TJoinOp)
    (J : JoinParams B P K) (build : List B) (probe : List P) (out : List (JoinOut B P))
    (h : partitionedHashJoin op J build probe = .ok out) :
    (↑out : Multiset (JoinOut B P)) = ↑(refJoin op J build probe) := by
  by_cases hop : op = .NULL_AWARE_LEFT_ANTI_JOIN
  · subst hop
    unfold partitionedHashJoin at h
    rw [if_pos rfl] at h
    cases hrun : partitionedJoinRun .NULL_AWARE_LEFT_ANTI_JOIN J
        (build.filter fun b => (J.keyB b).isSome)
        (probe.filter fun p => (J.keyP p).isSome) with
    | error e =>
        rw [hrun] at h
        simp only [Except.bind, bind] at h
        exact Except.noConfusion h
    | ok routed =>
        rw [hrun] at h
        simp only [Except.bind, bind, Except.ok.injEq] at h
        subst h
        refine naaj_phase_ref J build probe routed ?_
        have hrr := partitionedJoinRun_ok .NULL_AWARE_LEFT_ANTI_JOIN J _ _ routed hrun
        rwa [show hashLoopOp .NULL_AWARE_LEFT_ANTI_JOIN = .LEFT_ANTI_JOIN from rfl] at hrr
  · unfold partitionedHashJoin at h
    rw [if_neg hop] at h
    have hrun := partitionedJoinRun_ok op J build probe out h
    rwa [show hashLoopOp op = op from by unfold hashLoopOp; rw [if_neg hop]] at hrun

/-! ### Depth-bound lemmas -/

/-- The embedding's recursion budget marker is unreachable whenever the
budget covers the remaining levels below `MAX_PARTITION_DEPTH`: each
spill descends exactly one level, so the descent is bounded. -/
theorem processSpilledPartition_no_depth_error {K : Type} [DecidableEq K] (op : TJoinOp)
    (J : JoinParams B P K) :
    ∀ (fuel level : Nat) (build : List B) (probe : List P),
      level ≤ MAX_PARTITION_DEPTH → MAX_PARTITION_DEPTH + 1 ≤ level + fuel →
      processSpilledPartition op J fuel level build probe ≠ .error .depthBudgetExhausted := by
  intro fuel
  induction fuel with
  | zero =>
      intro level build probe hlev hle
      exact absurd hle (by omega)
  | succ fuel ih =>
      intro level build probe hlev hle h
      simp only [processSpilledPartition] at h
      by_cases hfit : J.fits level build = true
      · rw [if_pos hfit] at h
        exact Except.noConfusion h
      · rw [if_neg hfit] at h
        by_cases hl : MAX_PARTITION_DEPTH ≤ level
        · rw [if_pos hl] at h
          injection h with h'
          exact JoinErr.noConfusion h'
        · rw [if_neg hl] at h
          obtain ⟨i, _, hfi⟩ := combinePartitions_error _ (List.finRange PARTITION_FANOUT) _ h
          by_cases hsp : J.spill (level + 1) (buildPartitionRows J (level + 1) i build) = true
          · rw [if_pos hsp] at hfi
            exact ih (level + 1) _ _ (by omega) (by omega) hfi
          · rw [if_neg hsp] at hfi
            exact Except.noConfusion hfi

/-- The level-0 drive never exhausts the recursion budget. -/
theorem partitionedJoinRun_no_depth_error {K : Type} [DecidableEq K] (op : TJoinOp)
    (J : JoinParams B P K) (build : List B) (probe : List P) :
    partitionedJoinRun op J build probe ≠ .error .depthBudgetExhausted := by
  intro h
  unfold partitionedJoinRun at h
  obtain ⟨i, _, hfi⟩ := combinePartitions_error _ (List.finRange PARTITION_FANOUT) _ h
  by_cases hsp : J.spill 0 (buildPartitionRows J 0 i build) = true
  · rw [if_pos hsp] at hfi
    exact processSpilledPartition_no_depth_error op J (MAX_PARTITION_DEPTH + 1) 0 _ _
      (by omega) (by omega) hfi
  · rw [if_neg hsp] at hfi
    exact Except.noConfusion hfi

/-- The whole operator never exhausts the recursion budget. -/
theorem partitionedHashJoin_no_depth_error {K : Type} [DecidableEq K] (op : TJoinOp)
    (J : JoinParams B P K) (build : List B) (probe : List P) :
    partitionedHashJoin op J build probe ≠ .error .depthBudgetExhausted := by
  intro h
  unfold partitionedHashJoin at h
  by_cases hop : op = .NULL_AWARE_LEFT_ANTI_JOIN
  · rw [if_pos hop] at h
    cases hrun : partitionedJoinRun op J (build.filter fun b => (J.keyB b).isSome)
        (probe.filter fun p => (J.keyP p).isSome) with
    | error e =>
        rw [hrun] at h
        simp only [Except.bind, bind, Except.error.injEq] at h
        subst h
        exact partitionedJoinRun_no_depth_error op J _ _ hrun
    | ok routed =>
        rw [hrun] at h
        simp only [Except.bind, bind] at h
        exact Except.noConfusion h
  · rw [if_neg hop] at h
    exact partitionedJoinRun_no_depth_error op J build probe h

/-- A partition at the maximum depth whose build side does not fit is the
fatal memory-limit condition. -/
theorem processSpilledPartition_fatal_at_max {K : Type} [DecidableEq K] (op : TJoinOp)
    (J : JoinParams B P K) (level fuel : Nat) (build : List B) (probe : List P)
    (hlev : level = MAX_PARTITION_DEPTH) (hfit : J.fits level build = false)
    (hfuel : 0 < fuel) :
    processSpilledPartition op J fuel level build probe = .error .memLimitExceeded := by
  cases fuel with
  | zero => exact absurd hfuel (by omega)
  | succ fuel =>
      simp only [processSpilledPartition]
      rw [if_neg (by rw [hfit]; exact Bool.false_ne_true), if_pos (by omega)]

/-! ### Claims -/

/-- C1. For every pair of finite build and probe inputs, every join
variant and every residual predicate (and every hash family and memory
policy, i.e. with or without induced spilling), the multiset of rows
produced by the operator driven to end of stream equals the reference
naive nested-loop join of that variant. -/
theorem c1_completeness_partitioned_join_matches_reference {K : Type} [DecidableEq K]
    (op : TJoinOp) (J : JoinParams B P K) (build : List B) (probe : List P)
    (out : List (JoinOut B P)) (h : partitionedHashJoin op J build probe = .ok out) :
    (↑out : Multiset (JoinOut B P)) = ↑(refJoin op J build probe) :=
  partitionedHashJoin_ok_ref op J build probe out h

/-- Witness for C1 on scenario S1 of the spec: build keys 1, 2 against
probe keys 2, 3 under an inner join, with the level-0 partitions forced
to spill. -/
theorem c1_witness :
    (↑[((some 2 : Option Nat), (some 2 : Option Nat))] : Multiset (JoinOut Nat Nat))
      = ↑(refJoin .INNER_JOIN exampleParams [1, 2] [2, 3]) :=
  c1_completeness_partitioned_join_matches_reference .INNER_JOIN exampleParams
    [1, 2] [2, 3] [((some 2 : Option Nat), (some 2 : Option Nat))] rfl

/-- C2. The spill/repartition recursion terminates: each spill descends
exactly one level, so a budget of `MAX_PARTITION_DEPTH + 1 - level` always
suffices and the budget marker is unreachable (first conjunct, and third
conjunct for the operator's entry point); a partition that reaches
`MAX_PARTITION_DEPTH` and still cannot build its hash table reports the
fatal memory error instead of recursing (second conjunct). -/
theorem c2_spill_recursion_depth_bound {K : Type} [DecidableEq K] (op : TJoinOp)
    (J : JoinParams B P K) (level fuel : Nat) (build : List B) (probe : List P) :
    (level ≤ MAX_PARTITION_DEPTH → MAX_PARTITION_DEPTH + 1 ≤ level + fuel →
      processSpilledPartition op J fuel level build probe ≠ .error .depthBudgetExhausted)
  ∧ (level = MAX_PARTITION_DEPTH → J.fits level build = false → 0 < fuel →
      processSpilledPartition op J fuel level build probe = .error .memLimitExceeded)
  ∧ partitionedHashJoin op J build probe ≠ .error .depthBudgetExhausted :=
  ⟨fun h1 h2 => processSpilledPartition_no_depth_error op J fuel level build probe h1 h2,
    fun h1 h2 h3 => processSpilledPartition_fatal_at_max op J level fuel build probe h1 h2 h3,
    partitionedHashJoin_no_depth_error op J build probe⟩

/-- Witness for C2: a singleton partition pair processed from level 0
with the full budget never hits the budget marker; the same pair at level
16 with a build side that does not fit is the fatal memory error. -/
theorem c2_witness :
    (processSpilledPartition .INNER_JOIN exampleParamsNoFit 17 0 [1] [1]
      ≠ .error .depthBudgetExhausted)
  ∧ processSpilledPartition .INNER_JOIN exampleParamsNoFit 1 16 [1] [1]
      = .error .memLimitExceeded
  ∧ partitionedHashJoin .INNER_JOIN exampleParamsNoFit [1] [1]
      ≠ .error .depthBudgetExhausted :=
  ⟨(c2_spill_recursion_depth_bound .INNER_JOIN exampleParamsNoFit 0 17 [1] [1]).1
      (by decide) (by decide),
    (c2_spill_recursion_depth_bound .INNER_JOIN exampleParamsNoFit 16 1 [1] [1]).2.1
      rfl rfl (by decide),
    (c2_spill_recursion_depth_bound .INNER_JOIN exampleParamsNoFit 0 17 [1] [1]).2.2⟩

/-- C5. Under LEFT_SEMI each probe row occurrence appears at most once in
the total output, and under RIGHT_SEMI each build row occurrence appears
at most once, for every input, residual predicate and memory policy. -/
theorem c5_semi_join_no_duplicates {K : Type} [DecidableEq K] [DecidableEq B]
    [DecidableEq P] (J : JoinParams B P K) (build : List B) (probe : List P)
    (outL outR : List (JoinOut B P))
    (hL : partitionedHashJoin .LEFT_SEMI_JOIN J build probe = .ok outL)
    (hR : partitionedHashJoin .RIGHT_SEMI_JOIN J build probe = .ok outR) :
    (∀ p : P, (↑outL : Multiset (JoinOut B P)).count ((none : Option B), (some p : Option P))
        ≤ (↑probe : Multiset P).count p)
  ∧ (∀ b : B, (↑outR : Multiset (JoinOut B P)).count ((some b : Option B), (none : Option P))
        ≤ (↑build : Multiset B).count b) := by
  constructor
  · intro p
    rw [partitionedHashJoin_ok_ref _ J build probe outL hL]
    rw [show (↑(refJoin .LEFT_SEMI_JOIN J build probe) : Multiset (JoinOut B P))
        = Multiset.map (fun p : P => ((none : Option B), (some p : Option P)))
            ↑(probe.filter fun p => hasMatch J build p) from
      (Multiset.map_coe _ _).symm]
    have hinj : Function.Injective
        fun p : P => ((none : Option B), (some p : Option P)) := by
      intro a b hab
      simpa using hab
    rw [Multiset.count_map_eq_count' _ _ hinj p]
    refine Multiset.count_le_of_le p ?_
    rw [Multiset.coe_le]
    exact (List.filter_sublist probe).subperm
  · intro b
    rw [partitionedHashJoin_ok_ref _ J build probe outR hR]
    rw [show (↑(refJoin .RIGHT_SEMI_JOIN J build probe) : Multiset (JoinOut B P))
        = Multiset.map (fun b : B => ((some b : Option B), (none : Option P)))
            ↑(build.filter fun b => buildMatched J probe b) from
      (Multiset.map_coe _ _).symm]
    have hinj : Function.Injective
        fun b : B => ((some b : Option B), (none : Option P)) := by
      intro a b hab
      simpa using hab
    rw [Multiset.count_map_eq_count' _ _ hinj b]
    refine Multiset.count_le_of_le b ?_
    rw [Multiset.coe_le]
    exact (List.filter_sublist build).subperm

/-- Witness for C5: build rows 1, 1 against probe row 1; the left-semi
output emits the probe row once, the right-semi output emits each build
row occurrence once. -/
theorem c5_witness :
    ((↑[((none : Option Nat), (some 1 : Option Nat))] : Multiset (JoinOut Nat Nat)).count
        ((none : Option Nat), (some 1 : Option Nat)) ≤ (↑[1] : Multiset Nat).count 1)
  ∧ ((↑[((some 1 : Option Nat), (none : Option Nat)),
        ((some 1 : Option Nat), (none : Option Nat))] : Multiset (JoinOut Nat Nat)).count
        ((some 1 : Option Nat), (none : Option Nat)) ≤ (↑[1, 1] : Multiset Nat).count 1) :=
  by
  have h := c5_semi_join_no_duplicates exampleParams [1, 1] [1]
    [((none : Option Nat), (some 1 : Option Nat))]
    [((some 1 : Option Nat), (none : Option Nat)),
      ((some 1 : Option Nat), (none : Option Nat))] (by rfl) (by rfl)
  exact ⟨h.1 1, h.2 1⟩

/-- Driving the sweep from position `it` with any capacity schedule emits
a prefix of the remaining rows whose length is the schedule's total
capacity. -/
theorem driveSweep_eq_take {γ : Type} (rows : List γ) :
    ∀ (caps : List Nat) (it : Nat), driveSweep rows caps it = (rows.drop it).take caps.sum := by
  intro caps
  induction caps with
  | nil => intro it; simp [driveSweep]
  | cons c cs ih =>
      intro it
      simp only [driveSweep, ih (it + c), List.sum_cons, List.take_add, List.drop_drop]

/-- C3. The join driver's state machine follows exactly the specified
transition relation: execution starts in PARTITIONING_BUILD; every step
taken is in the relation; the terminal state (eos) is reached exactly
when, in a popping state, no spilled partitions remain; a popped pair
leads to PROBING_SPILLED_PARTITION when its build side fits and to
REPARTITIONING_BUILD otherwise, and REPARTITIONING_BUILD is always
followed by REPARTITIONING_PROBE. -/
theorem c3_state_machine_follows_spec (d : DriverState) (q : List SpilledPartitionPair) :
    SpecTrans d.js ((JoinDriverStep d).map DriverState.js)
  ∧ (JoinDriverStep d = none ↔ popsSpilled d.js = true ∧ d.queue = [])
  ∧ (initialDriver q).js = .PARTITIONING_BUILD
  ∧ (∀ (fits : Bool) (ch rest : List SpilledPartitionPair),
      popsSpilled d.js = true → d.queue = .mk fits ch :: rest →
      (JoinDriverStep d).map DriverState.js
        = some (if fits then .PROBING_SPILLED_PARTITION else .REPARTITIONING_BUILD))
  ∧ (d.js = .REPARTITIONING_BUILD →
      (JoinDriverStep d).map DriverState.js = some .REPARTITIONING_PROBE) := by
  obtain ⟨js, pending, queue⟩ := d
  refine ⟨?_, ?_, rfl, ?_, ?_⟩
  · cases js with
    | PARTITIONING_BUILD => exact SpecTrans.build_to_probe
    | REPARTITIONING_BUILD => exact SpecTrans.repartition_build_to_probe
    | PARTITIONING_PROBE =>
        cases queue with
        | nil => exact SpecTrans.pop_eos _ rfl
        | cons t rest =>
            obtain ⟨fits, ch⟩ := t
            cases fits
            · exact SpecTrans.pop_repartition _ rfl
            · exact SpecTrans.pop_fits _ rfl
    | PROBING_SPILLED_PARTITION =>
        cases queue with
        | nil => exact SpecTrans.pop_eos _ rfl
        | cons t rest =>
            obtain ⟨fits, ch⟩ := t
            cases fits
            · exact SpecTrans.pop_repartition _ rfl
            · exact SpecTrans.pop_fits _ rfl
    | REPARTITIONING_PROBE =>
        cases queue with
        | nil => exact SpecTrans.pop_eos _ rfl
        | cons t rest =>
            obtain ⟨fits, ch⟩ := t
            cases fits
            · exact SpecTrans.pop_repartition _ rfl
            · exact SpecTrans.pop_fits _ rfl
  · cases js with
    | PARTITIONING_BUILD => simp [JoinDriverStep, popsSpilled]
    | REPARTITIONING_BUILD => simp [JoinDriverStep, popsSpilled]
    | PARTITIONING_PROBE =>
        cases queue with
        | nil => simp [JoinDriverStep, popsSpilled]
        | cons t rest =>
            obtain ⟨fits, ch⟩ := t
            cases fits <;> simp [JoinDriverStep, popsSpilled]
    | PROBING_SPILLED_PARTITION =>
        cases queue with
        | nil => simp [JoinDriverStep, popsSpilled]
        | cons t rest =>
            obtain ⟨fits, ch⟩ := t
            cases fits <;> simp [JoinDriverStep, popsSpilled]
    | REPARTITIONING_PROBE =>
        cases queue with
        | nil => simp [JoinDriverStep, popsSpilled]
        | cons t rest =>
            obtain ⟨fits, ch⟩ := t
            cases fits <;> simp [JoinDriverStep, popsSpilled]
  · intro fits ch rest hpop hq
    subst hq
    cases js with
    | PARTITIONING_BUILD => simp [popsSpilled] at hpop
    | REPARTITIONING_BUILD => simp [popsSpilled] at hpop
    | PARTITIONING_PROBE => cases fits <;> rfl
    | PROBING_SPILLED_PARTITION => cases fits <;> rfl
    | REPARTITIONING_PROBE => cases fits <;> rfl
  · intro h
    subst h
    rfl

/-- Witness for C3: a driver in PARTITIONING_PROBE with one spilled pair
that fits moves to PROBING_SPILLED_PARTITION. -/
theorem c3_witness :
    (JoinDriverStep ⟨.PARTITIONING_PROBE, [], [.mk true []]⟩).map DriverState.js
      = some (if true then HashJoinState.PROBING_SPILLED_PARTITION
          else HashJoinState.REPARTITIONING_BUILD) :=
  (c3_state_machine_follows_spec ⟨.PARTITIONING_PROBE, [], [.mk true []]⟩ []).2.2.2.1
    true [] [] rfl rfl

/-- C4. After `PrepareForProbe`, a live partition has exactly one of a
hash table (in-memory) or a probe partition (spilled): `hash_tbls_[i]` is
NULL if and only if `probe_hash_partitions_[i]` is non-NULL, and no
partition ever has both. -/
theorem c4_hash_tbl_xor_probe_partition
    (parts : Fin PARTITION_FANOUT → BuildPartitionModel B) (i : Fin PARTITION_FANOUT) :
    ((parts i).pstate ≠ .closed →
      ((@PrepareForProbeProbePartitions B P parts i ≠ none)
        ↔ PrepareForProbeHashTbls parts i = none))
  ∧ ¬((@PrepareForProbeProbePartitions B P parts i ≠ none)
      ∧ PrepareForProbeHashTbls parts i ≠ none) := by
  constructor
  · intro hlive
    unfold PrepareForProbeProbePartitions PrepareForProbeHashTbls
    cases hs : (parts i).pstate with
    | inMemory => simp [hs]
    | spilled => simp [hs]
    | closed => exact absurd hs hlive
  · unfold PrepareForProbeProbePartitions PrepareForProbeHashTbls
    cases hs : (parts i).pstate <;> simp [hs]

/-- Witness for C4: a spilled partition has a probe partition and no hash
table. -/
theorem c4_witness :
    ((@PrepareForProbeProbePartitions Nat Nat
        (fun _ => ⟨.spilled, []⟩) ⟨0, by decide⟩ ≠ none)
      ↔ PrepareForProbeHashTbls (fun _ => ⟨.spilled, ([] : List Nat)⟩) ⟨0, by decide⟩ = none) :=
  (c4_hash_tbl_xor_probe_partition (fun _ => ⟨.spilled, []⟩) ⟨0, by decide⟩).1 (by decide)

/-- C6. `EvaluateNullProbe` sets a row's bit exactly when it was already
set or some build row of the given stream satisfies the residual against
it (short-circuiting is unobservable in the result), and
`OutputNullAwareNullProbe` then emits exactly the rows whose bit is still
false; from a cleared bit-vector the composition emits exactly the rows
matched by no build row. -/
theorem c6_null_probe_evaluation {K : Type} (J : JoinParams B P K) (build : List B)
    (rows : List P) (matched : List Bool) (_hlen : matched.length = rows.length) :
    (OutputNullAwareNullProbe rows (EvaluateNullProbe J build rows matched)
      = (rows.zip matched).filterMap fun pm =>
          if pm.2 || build.any (fun b => J.residual b pm.1) then none else some pm.1)
  ∧ (OutputNullAwareNullProbe rows
        (EvaluateNullProbe J build rows (List.replicate rows.length false))
      = rows.filter fun p => !build.any fun b => J.residual b p) := by
  constructor
  · clear _hlen
    induction rows generalizing matched with
    | nil => rfl
    | cons r rs ih =>
        cases matched with
        | nil => rfl
        | cons m ms =>
            simp only [EvaluateNullProbe, List.zipWith_cons_cons, OutputNullAwareNullProbe,
              List.zip_cons_cons, List.filterMap_cons]
            by_cases h : (m || build.any fun b => J.residual b r) = true
            · simp only [h, if_true, if_false]
              exact ih ms
            · have h' : (m || build.any fun b => J.residual b r) = false := by
                revert h; cases m || build.any fun b => J.residual b r <;> simp
              simp only [h', if_true, if_false]
              rw [show List.filterMap
                  (fun pm : P × Bool => if pm.2 then none else some pm.1)
                  (rs.zip (List.zipWith
                    (fun p m => m || build.any fun b => J.residual b p) rs ms))
                  = OutputNullAwareNullProbe rs (EvaluateNullProbe J build rs ms) from rfl,
                ih ms]
  · exact nullProbe_pipeline J build rows

/-- Witness for C6 on one NULL probe row with an initially set bit. -/
theorem c6_witness :
    (OutputNullAwareNullProbe [(7 : Nat)]
        (EvaluateNullProbe exampleParams [] [(7 : Nat)] [true])
      = ([(7 : Nat)].zip [true]).filterMap fun pm =>
          if pm.2 || List.any [] (fun b => exampleParams.residual b pm.1) then none
          else some pm.1)
  ∧ (OutputNullAwareNullProbe [(7 : Nat)]
        (EvaluateNullProbe exampleParams [] [(7 : Nat)]
          (List.replicate [(7 : Nat)].length false))
      = [(7 : Nat)].filter fun p => !List.any [] fun b => exampleParams.residual b p) :=
  c6_null_probe_evaluation exampleParams [] [(7 : Nat)] [true] rfl

/-- C7. `AppendProbeRow` on a stream with an allocated write buffer
succeeds (returning true and appending the row, leaving the status
untouched) unless a disk-write failure occurs, in which case it returns
false and reports the error through the out-parameter status. -/
theorem c7_append_probe_row_contract (stream : List P) (row : P) (st : Status) :
    (∀ ioFail : Bool, (AppendProbeRow ioFail stream row st).1 = !ioFail)
  ∧ AppendProbeRow false stream row st = (true, stream ++ [row], st)
  ∧ AppendProbeRow true stream row st = (false, stream, Status.ioError) := by
  refine ⟨fun ioFail => ?_, rfl, rfl⟩
  cases ioFail <;> rfl

/-- C8 counterexample: the claim includes RIGHT_SEMI among the variants
whose partitions are swept by `OutputUnmatchedBuild` and says the sweep
emits each matched-but-not-yet-emitted build row; per the header,
right-semi partitions are not queued on `output_build_partitions_` and
the sweep emits nothing for them — here a matched build row (value 5,
flag set) that the claim would have the sweep emit. -/
theorem c8_right_semi_not_swept_counterexample :
    usesOutputBuildPartitions .RIGHT_SEMI_JOIN = false
  ∧ @OutputUnmatchedBuild Nat Nat .RIGHT_SEMI_JOIN [((5 : Nat), true)] = []
  ∧ @OutputUnmatchedBuild Nat Nat .RIGHT_SEMI_JOIN [((5 : Nat), true)]
      ≠ [((some 5 : Option Nat), (none : Option Nat))] := by
  refine ⟨rfl, rfl, ?_⟩
  decide

/-- C8 (amended). For RIGHT_OUTER, FULL_OUTER and RIGHT_ANTI, after the
probe-driven output of an in-memory partition, the sweep of its hash
table emits every unmatched build row exactly once (with NULLs on the
probe side); the sweep is resumable across output batches via the
persisted iterator position — any capacity schedule covering the rows
reproduces them; RIGHT_SEMI partitions are not queued for the sweep:
their matched build rows are emitted inline while probing, each exactly
once. -/
theorem c8_unmatched_build_sweep_amended {K : Type} [DecidableEq K] (op : TJoinOp)
    (J : JoinParams B P K) (build : List B) (probe : List P)
    (rows : List (JoinOut B P)) (caps : List Nat)
    (hop : usesOutputBuildPartitions op = true) (hcap : rows.length ≤ caps.sum) :
    (OutputUnmatchedBuild op
        ((processProbeRows op J (build.map fun b => (b, false)) probe).2)
      = (build.filter fun b => !buildMatched J probe b).map
          fun b => ((some b : Option B), (none : Option P)))
  ∧ driveSweep rows caps 0 = rows
  ∧ usesOutputBuildPartitions .RIGHT_SEMI_JOIN = false
  ∧ ((↑(processProbeRows .RIGHT_SEMI_JOIN J (build.map fun b => (b, false)) probe).1 :
        Multiset (JoinOut B P))
      = ↑((build.filter fun b => buildMatched J probe b).map
          fun b => ((some b : Option B), (none : Option P)))) := by
  refine ⟨sweep_after_pass hop J build probe, ?_, rfl,
    Multiset.coe_eq_coe.mpr (rs_pass_perm_matched J build probe)⟩
  rw [driveSweep_eq_take, List.drop_zero]
  exact List.take_of_length_le hcap

/-- Witness for C8 (amended) on a right-outer partition with build row 1
and probe row 2 (no match, so the build row is swept), and a one-chunk
sweep schedule. -/
theorem c8_witness :
    (OutputUnmatchedBuild .RIGHT_OUTER_JOIN
        ((processProbeRows .RIGHT_OUTER_JOIN exampleParams
          ([1].map fun b => (b, false)) [2]).2)
      = (([1].filter fun b => !buildMatched exampleParams [2] b).map
          fun b => ((some b : Option Nat), (none : Option Nat))))
  ∧ driveSweep [((some 1 : Option Nat), (none : Option Nat))] [5] 0
      = [((some 1 : Option Nat), (none : Option Nat))]
  ∧ usesOutputBuildPartitions .RIGHT_SEMI_JOIN = false
  ∧ ((↑(processProbeRows .RIGHT_SEMI_JOIN exampleParams
        ([1].map fun b => (b, false)) [2]).1 : Multiset (JoinOut Nat Nat))
      = ↑(([1].filter fun b => buildMatched exampleParams [2] b).map
          fun b => ((some b : Option Nat), (none : Option Nat)))) :=
  c8_unmatched_build_sweep_amended .RIGHT_OUTER_JOIN exampleParams [1] [2]
    [((some 1 : Option Nat), (none : Option Nat))] [5] rfl (by decide)

/-- C9. `Close` is idempotent: a second call releases no resources and
leaves the state unchanged, and likewise `ProbePartition::Close`. -/
theorem c9_close_idempotent (s : PartitionedHashJoinNode P) (pp : ProbePartition P) :
    (PartitionedHashJoinNode.Close (PartitionedHashJoinNode.Close s).1
        = ((PartitionedHashJoinNode.Close s).1, ([] : List P)))
  ∧ (ProbePartition.Close (ProbePartition.Close pp).1
        = ((ProbePartition.Close pp).1, ([] : List P))) := by
  constructor
  · by_cases h : s.isClosed = true
    · simp [PartitionedHashJoinNode.Close, h]
    · simp [PartitionedHashJoinNode.Close, h]
  · cases hp : pp.probeRows <;> simp [ProbePartition.Close, hp]

/-- C10. `ProcessProbeBatch` returns -1 exactly when an error occurred
(and then the out-parameter status is non-OK); on success it returns the
non-negative number of rows added to the output batch, and the batch's
committed row count is unchanged by the call. -/
theorem c10_process_probe_batch_error_contract {K : Type} [DecidableEq K] (op : TJoinOp)
    (J : JoinParams B P K) (failRow : P → Bool) (bt : List (B × Bool))
    (probeBatch : List P) (batch : OutBatchModel (JoinOut B P)) :
    ((ProcessProbeBatch op J failRow bt probeBatch batch).1 = -1
      ↔ (ProcessProbeBatch op J failRow bt probeBatch batch).2.1 ≠ Status.ok)
  ∧ ((ProcessProbeBatch op J failRow bt probeBatch batch).2.1 = Status.ok →
      (ProcessProbeBatch op J failRow bt probeBatch batch).1
          = ((processProbeBatchLoop op J failRow bt probeBatch).1.length : Int)
        ∧ (ProcessProbeBatch op J failRow bt probeBatch batch).2.2.rows
            = batch.rows ++ (processProbeBatchLoop op J failRow bt probeBatch).1
        ∧ 0 ≤ (ProcessProbeBatch op J failRow bt probeBatch batch).1)
  ∧ (ProcessProbeBatch op J failRow bt probeBatch batch).2.2.numCommitted
      = batch.numCommitted := by
  unfold ProcessProbeBatch
  by_cases herr : (processProbeBatchLoop op J failRow bt probeBatch).2.2 = true
  · rw [if_pos herr]
    exact ⟨⟨fun _ hok => Status.noConfusion hok, fun _ => rfl⟩,
      fun hok => absurd hok fun h => Status.noConfusion h, rfl⟩
  · rw [if_neg herr]
    refine ⟨⟨fun h1 => ?_, fun h2 => ?_⟩, fun _ => ⟨rfl, rfl, ?_⟩, rfl⟩
    · exact absurd h1 (by omega)
    · exact absurd rfl h2
    · exact Int.natCast_nonneg _

/-- Witness for C10 on a successful batch: one probe row, no failures. -/
theorem c10_witness :
    (ProcessProbeBatch .INNER_JOIN exampleParams (fun _ => false) [] [1] ⟨[], 0⟩).1
        = ((processProbeBatchLoop .INNER_JOIN exampleParams (fun _ => false) [] [1]).1.length :
            Int)
      ∧ (ProcessProbeBatch .INNER_JOIN exampleParams (fun _ => false) [] [1] ⟨[], 0⟩).2.2.rows
          = (⟨[], 0⟩ : OutBatchModel (JoinOut Nat Nat)).rows
            ++ (processProbeBatchLoop .INNER_JOIN exampleParams (fun _ => false) [] [1]).1
      ∧ 0 ≤ (ProcessProbeBatch .INNER_JOIN exampleParams (fun _ => false) [] [1] ⟨[], 0⟩).1 :=
  (c10_process_probe_batch_error_contract .INNER_JOIN exampleParams (fun _ => false) []
    [1] ⟨[], 0⟩).2.1 rfl

end Impala
